import Mathlib

/-!
Verification development for the crawler core of `durex_scraper.py`
(repository `miningwebcourse`, directory `DUREX EXERCISE`).

The Python code is shallowly embedded over `Str := List Char`.  The scraper's
own functions (`clean_url`, `same_domain`, `normalize_text`, `extract_content`,
`build_robot_parser`, `crawl_site`) are translated directly from the source.
The standard-library collaborators they call (`urllib.parse.urlsplit`,
`urllib.parse.urlparse`, `urllib.parse.urlunparse`,
`urllib.robotparser.RobotFileParser`) are modelled from CPython 3.11's
`urllib/parse.py` and `urllib/robotparser.py`, because the scraper's observable
behaviour depends on their exact semantics.  Python exceptions are modelled
with `Except Unit`.

Modelling notes (conservative approximations, each marked at its definition):
an URL netloc containing a bracket, or a non-ASCII character, is modelled as a
parse error (CPython validates bracketed IPv6 hosts and NFKC-normalises
non-ASCII netlocs; every claim here concerns bracket-free ASCII URLs);
percent-quoting inside `RobotFileParser.can_fetch` is modelled as the identity
(no claim exercises a non-empty ruleset); the HTML tree handed to
`BeautifulSoup` is taken as an abstract node tree, and `urljoin` plus the HTTP
transport are abstract parameters of the crawl engine, as the specification
itself declares them external collaborators.
-/

/-- Python strings are modelled as lists of characters. -/
abbrev Str := List Char

/-! ### Python string primitives -/

/-- Characters stripped by `urlsplit`: `_WHATWG_C0_CONTROL_OR_SPACE`,
i.e. code points 0x00 through 0x20. -/
def isC0orSpace (c : Char) : Bool := c.val ≤ 32

/-- Characters removed everywhere by `urlsplit`:
`_UNSAFE_URL_BYTES_TO_REMOVE = ["\t", "\r", "\n"]`. -/
def isUnsafeUrlChar (c : Char) : Bool := c = '\t' || c = '\r' || c = '\n'

/-- `url.lstrip(_WHATWG_C0_CONTROL_OR_SPACE)` — CPython 3.11 strips the
leading side only. -/
def lstripC0 (s : Str) : Str := s.dropWhile isC0orSpace

/-- The three `url.replace(b, "")` calls of `urlsplit`, fused into one filter
(each removes single characters, so the sequential replaces equal one pass). -/
def removeUnsafe (s : Str) : Str := s.filter (fun c => !(isUnsafeUrlChar c))

/-- The input sanitisation performed at the top of `urlsplit`. -/
def preprocessUrl (s : Str) : Str := removeUnsafe (lstripC0 s)

/-- Python `str.isascii()` for a single character. -/
def isAsciiChar (c : Char) : Bool := c.val ≤ 127

/-- ASCII letter test: `c.isascii() and c.isalpha()`. -/
def isAsciiAlpha (c : Char) : Bool :=
  ('a' ≤ c && c ≤ 'z') || ('A' ≤ c && c ≤ 'Z')

/-- ASCII digit test. -/
def isAsciiDigit (c : Char) : Bool := '0' ≤ c && c ≤ '9'

/-- Membership in `scheme_chars` (letters, digits, `+`, `-`, `.`). -/
def isSchemeChar (c : Char) : Bool :=
  isAsciiAlpha c || isAsciiDigit c || c = '+' || c = '-' || c = '.'

/-- Python `str.lower()`.  `Char.toLower` lowercases exactly the ASCII range,
matching Python on the ASCII strings this development works with. -/
def pyLower (s : Str) : Str := s.map Char.toLower

/-- Python `s.split(c, 1)` fused with its `if c in s` guard: splits at the
first occurrence of `c`; when `c` is absent it returns `(s, [])`, which is
exactly what the guarded code paths of `urlsplit` compute. -/
def splitOnceD (c : Char) (s : Str) : Str × Str :=
  (s.takeWhile (· != c), (s.dropWhile (· != c)).drop 1)

/-- Python `s.split(c, 1)` as used when presence matters: `some` iff `c ∈ s`. -/
def splitOnceOpt (c : Char) (s : Str) : Option (Str × Str) :=
  if c ∈ s then some (s.takeWhile (· != c), (s.dropWhile (· != c)).drop 1)
  else none

/-- Splits `s` around its last occurrence of `c`: returns
(everything up to and including the last `c`, the remainder).  When `c ∉ s`
the result is `([], s)`.  This packages the `url.rfind('/')` index arithmetic
of `_splitparams` as a list operation. -/
def lastSegSplit (c : Char) (s : Str) : Str × Str :=
  ((s.reverse.dropWhile (· != c)).reverse, (s.reverse.takeWhile (· != c)).reverse)

/-- Python `str.replace(pat, rep)` (leftmost, non-overlapping) via a skip
counter; `skip` counts already-consumed pattern characters.  For the empty
pattern Python interleaves `rep` everywhere; this model returns the string
unchanged instead, and is only ever applied to the pattern `"www."`. -/
def replaceAux (pat rep : Str) (skip : Nat) : Str → Str
  | [] => []
  | c :: rest =>
    match skip with
    | n + 1 => replaceAux pat rep n rest
    | 0 =>
      if pat ≠ [] ∧ pat.isPrefixOf (c :: rest) then
        rep ++ replaceAux pat rep (pat.length - 1) rest
      else
        c :: replaceAux pat rep 0 rest

/-- Python `str.replace(pat, rep)`. -/
def pyReplace (pat rep : Str) (s : Str) : Str := replaceAux pat rep 0 s

/-- Python `\s` for the ASCII range (re.sub in `normalize_text`). -/
def isPySpace (c : Char) : Bool :=
  c = ' ' || c = '\t' || c = '\n' || c = '\r' || c = '\x0b' || c = '\x0c'

/-- Collapses every whitespace run to a single space, emitting the space at
the first character of each run (`re.sub(r"\s+", " ", text)`); `inRun` records
whether the previous character belonged to a whitespace run. -/
def collapseAux (inRun : Bool) : Str → Str
  | [] => []
  | c :: rest =>
    if isPySpace c then
      if inRun then collapseAux true rest
      else ' ' :: collapseAux true rest
    else c :: collapseAux false rest

/-- Python `str.strip()` restricted to the ASCII whitespace characters. -/
def pyStrip (s : Str) : Str :=
  ((s.dropWhile isPySpace).reverse.dropWhile isPySpace).reverse

/-- Python `pat in s` (substring containment). -/
def isSubstringOf (pat : Str) : Str → Bool
  | [] => pat.isEmpty
  | c :: rest => pat.isPrefixOf (c :: rest) || isSubstringOf pat rest

/-! ### `urllib.parse` model (CPython 3.11) -/

/-- The five components returned by `urlsplit`. -/
structure SplitResult where
  scheme : Str
  netloc : Str
  path : Str
  query : Str
  fragment : Str
deriving DecidableEq, Repr

/-- The six components returned by `urlparse`. -/
structure ParseResult where
  scheme : Str
  netloc : Str
  path : Str
  params : Str
  query : Str
  fragment : Str
deriving DecidableEq, Repr

/-- `uses_params` from `urllib/parse.py`. -/
def uses_params : List Str :=
  [[], "ftp".data, "hdl".data, "prospero".data, "http".data, "imap".data,
   "https".data, "shttp".data, "rtsp".data, "rtsps".data, "rtspu".data,
   "sip".data, "sips".data, "mms".data, "sftp".data, "tel".data]

/-- `uses_netloc` from `urllib/parse.py`. -/
def uses_netloc : List Str :=
  [[], "ftp".data, "http".data, "gopher".data, "nntp".data, "telnet".data,
   "imap".data, "wais".data, "file".data, "mms".data, "https".data,
   "shttp".data, "snews".data, "prospero".data, "rtsp".data, "rtsps".data,
   "rtspu".data, "rsync".data, "svn".data, "svn+ssh".data, "sftp".data,
   "nfs".data, "git".data, "git+ssh".data, "ws".data, "wss".data]

/-- The scheme-detection block of `urlsplit`: `i = url.find(':')`, accept when
`i > 0`, the first character is an ASCII letter and every character before the
colon is in `scheme_chars`; on acceptance the scheme is lowercased and the
colon consumed, otherwise the url is left untouched. -/
def splitScheme (url : Str) : Str × Str :=
  if ':' ∈ url then
    let before := url.takeWhile (· != ':')
    if before ≠ [] ∧ isAsciiAlpha (before.headD 'a') ∧ before.all isSchemeChar then
      (pyLower before, (url.dropWhile (· != ':')).drop 1)
    else ([], url)
  else ([], url)

/-- Characters at which `_splitnetloc` stops (`'/?#'`). -/
def notNetlocDelim (c : Char) : Bool := !(c = '/' || c = '?' || c = '#')

/-- The netloc block of `urlsplit`: when the url starts with `//`,
`_splitnetloc` cuts at the first of `/?#`; a netloc containing a bracket makes
CPython either raise "Invalid IPv6 URL" (mismatched) or validate the bracketed
host (matched) — the bracketed-host validation is not modelled, so any bracket
is conservatively a parse error; likewise `_checknetloc` accepts every ASCII
netloc and NFKC-checks non-ASCII ones — non-ASCII netlocs are conservatively a
parse error.  Every claim in this development concerns bracket-free ASCII
URLs, on which the model agrees with CPython exactly. -/
def netlocSplit (u : Str) : Except Unit (Str × Str) :=
  match u with
  | '/' :: '/' :: rest =>
    if '[' ∈ rest.takeWhile notNetlocDelim ∨ ']' ∈ rest.takeWhile notNetlocDelim then
      .error ()
    else if ¬ ((rest.takeWhile notNetlocDelim).all isAsciiChar = true) then .error ()
    else .ok (rest.takeWhile notNetlocDelim, rest.dropWhile notNetlocDelim)
  | _ => .ok ([], u)

/-- `urllib.parse.urlsplit` (CPython 3.11): sanitise, split the scheme, the
netloc, then the fragment at the first `#`, then the query at the first `?`. -/
def urlsplit (url0 : Str) : Except Unit SplitResult :=
  match netlocSplit (splitScheme (preprocessUrl url0)).2 with
  | .error e => .error e
  | .ok (netloc, u3) =>
    .ok ⟨(splitScheme (preprocessUrl url0)).1, netloc,
         (splitOnceD '?' (splitOnceD '#' u3).1).1,
         (splitOnceD '?' (splitOnceD '#' u3).1).2,
         (splitOnceD '#' u3).2⟩

/-- `_splitparams`: split path parameters at the first `;` at or after the
last `/` (or the first `;` at all when the url has no `/`).  The final branch
mirrors CPython's unguarded `url[:i], url[i+1:]` with `i = -1`; it is
unreachable because both callers guard on `';' ∈ url`. -/
def splitparams (url : Str) : Str × Str :=
  if '/' ∈ url then
    let pp := lastSegSplit '/' url
    match splitOnceOpt ';' pp.2 with
    | some (b1, b2) => (pp.1 ++ b1, b2)
    | none => (url, [])
  else
    match splitOnceOpt ';' url with
    | some (b1, b2) => (b1, b2)
    | none => (url.dropLast, url)

/-- `urllib.parse.urlparse` (CPython 3.11): `urlsplit`, then split params from
the path when the scheme uses params and the path contains `;`. -/
def urlparse (url : Str) : Except Unit ParseResult :=
  match urlsplit url with
  | .error e => .error e
  | .ok r =>
    if r.scheme ∈ uses_params ∧ ';' ∈ r.path then
      let pp := splitparams r.path
      .ok ⟨r.scheme, r.netloc, pp.1, pp.2, r.query, r.fragment⟩
    else
      .ok ⟨r.scheme, r.netloc, r.path, [], r.query, r.fragment⟩

/-- `urllib.parse.urlunsplit` (CPython 3.11). -/
def urlunsplit (scheme netloc path query fragment : Str) : Str :=
  let url :=
    if netloc ≠ [] ∨ (scheme ≠ [] ∧ scheme ∈ uses_netloc ∧ path.take 2 ≠ ['/', '/']) then
      '/' :: '/' :: netloc ++ (if path ≠ [] ∧ path.take 1 ≠ ['/'] then '/' :: path else path)
    else path
  let url := if scheme ≠ [] then scheme ++ ':' :: url else url
  let url := if query ≠ [] then url ++ '?' :: query else url
  if fragment ≠ [] then url ++ '#' :: fragment else url

/-- `urllib.parse.urlunparse` (CPython 3.11): rejoin params, then unsplit. -/
def urlunparse (p : ParseResult) : Str :=
  urlunsplit p.scheme p.netloc
    (if p.params ≠ [] then p.path ++ ';' :: p.params else p.path) p.query p.fragment

/-! ### Scraper pure helpers (`durex_scraper.py`) -/

/-- `SKIP_EXTENSIONS` from `durex_scraper.py` (a Python set, modelled as a
list; it is only ever consumed by an order-insensitive `any`). -/
def SKIP_EXTENSIONS : List Str :=
  [".pdf".data, ".jpg".data, ".jpeg".data, ".png".data, ".gif".data,
   ".webp".data, ".svg".data, ".zip".data, ".rar".data, ".7z".data,
   ".mp4".data, ".webm".data, ".mp3".data, ".avi".data, ".doc".data,
   ".docx".data, ".xls".data, ".xlsx".data, ".ppt".data, ".pptx".data]

/-- `any(parsed.path.lower().endswith(ext) for ext in SKIP_EXTENSIONS)`. -/
def hasSkipExtension (path : Str) : Bool :=
  SKIP_EXTENSIONS.any (fun ext => ext.isSuffixOf (pyLower path))

/-- `normalize_text` from `durex_scraper.py`:
`re.sub(r"\s+", " ", text or "").strip()`. -/
def normalize_text (s : Str) : Str := pyStrip (collapseAux false s)

/-- `clean_url` from `durex_scraper.py`.  Returns `.error` when `urlparse`
raises; `.ok []` is the rejected result (Python's `""`). -/
def clean_url (url : Str) : Except Unit Str :=
  match urlparse url with
  | .error e => .error e
  | .ok p =>
    if p.scheme = [] ∨ p.netloc = [] then .ok []
    else if ¬ (p.scheme = "http".data ∨ p.scheme = "https".data) then .ok []
    else if hasSkipExtension p.path = true then .ok []
    else .ok (urlunparse ⟨p.scheme, p.netloc, p.path, p.params, p.query, []⟩)

/-- `same_domain` from `durex_scraper.py`:
`netloc = urlparse(url).netloc.lower()`,
`netloc == base_domain or netloc.endswith("." + base_domain)`. -/
def same_domain (url : Str) (base_domain : Str) : Except Unit Bool :=
  match urlparse url with
  | .error e => .error e
  | .ok p =>
    let netloc := pyLower p.netloc
    .ok (decide (netloc = base_domain) || ('.' :: base_domain).isSuffixOf netloc)

/-- The base-domain computation of `crawl_site`:
`urlparse(base_url).netloc.replace("www.", "").lower()`. -/
def base_domain_of (base_url : Str) : Except Unit Str :=
  match urlparse base_url with
  | .error e => .error e
  | .ok p => .ok (pyLower (pyReplace ("www.".data) [] p.netloc))

/-- Modelled from the spec: the claimed base-domain computation, which strips
only a single leading `"www."` from the host (the code instead removes every
occurrence).  Kept for comparison with `base_domain_of`. -/
def specBaseDomain (base_url : Str) : Except Unit Str :=
  match urlparse base_url with
  | .error e => .error e
  | .ok p =>
    .ok (pyLower (if ("www.".data).isPrefixOf p.netloc then p.netloc.drop 4 else p.netloc))

/-! ### HTML document model and `extract_content`

The parsed document handed back by BeautifulSoup is modelled as an abstract
node tree (the HTML parser is an external collaborator per the spec).  The
operations used by the scraper — `decompose` of boilerplate subtrees, `find`
by tag/attribute (first match in document order), `find_all` counting, and
`get_text(sep)` (all descendant strings joined by `sep`) — are modelled on the
tree.  BeautifulSoup `Tag` objects are always truthy, so `find` results behave
like `Option` values. -/

/-- An HTML node: a text node, or an element with a tag name, attributes and
children. -/
inductive HNode where
  | txt (s : Str)
  | el (tag : Str) (attrs : List (Str × Str)) (children : List HNode)

/-- `Tag.get(key)`: first binding of `key` in the attribute list. -/
def getAttr (attrs : List (Str × Str)) (key : Str) : Option Str :=
  (attrs.find? (fun kv => decide (kv.fst = key))).map Prod.snd

/-- `soup([...]).decompose()`: removes every element whose tag is in `rm`,
together with its whole subtree. -/
def stripTags (rm : List Str) : List HNode → List HNode
  | [] => []
  | .txt s :: rest => .txt s :: stripTags rm rest
  | .el t a c :: rest =>
    if t ∈ rm then stripTags rm rest
    else .el t a (stripTags rm c) :: stripTags rm rest

/-- `soup.find(...)`: first element (document order, depth first) satisfying
the tag/attribute predicate. -/
def findTag (p : Str → List (Str × Str) → Bool) : List HNode → Option HNode
  | [] => none
  | .txt _ :: rest => findTag p rest
  | .el t a c :: rest =>
    if p t a then some (.el t a c)
    else
      match findTag p c with
      | some n => some n
      | none => findTag p rest

/-- `len(soup.find_all([tags...]))`: number of elements (nested included)
whose tag is in `tags`. -/
def countTags (tags : List Str) : List HNode → Nat
  | [] => 0
  | .txt _ :: rest => countTags tags rest
  | .el t _ c :: rest =>
    (if t ∈ tags then 1 else 0) + countTags tags c + countTags tags rest

/-- All descendant text-node strings in document order (`Tag.strings`). -/
def textsList : List HNode → List Str
  | [] => []
  | .txt s :: rest => s :: textsList rest
  | .el _ _ c :: rest => textsList c ++ textsList rest

/-- Python `sep.join(parts)`. -/
def joinSep (sep : Str) : List Str → Str
  | [] => []
  | [x] => x
  | x :: rest => x ++ sep ++ joinSep sep rest

/-- `Tag.get_text(sep)`: all descendant strings joined by `sep`. -/
def get_text (sep : Str) (n : HNode) : Str := textsList [n] |> joinSep sep

/-- The tags removed by `extract_content` before any signal is computed:
`soup(["script", "style", "nav", "footer", "header", "aside", "noscript"])`. -/
def BOILERPLATE_TAGS : List Str :=
  ["script".data, "style".data, "nav".data, "footer".data, "header".data,
   "aside".data, "noscript".data]

/-- The heading tags counted for `h_count`. -/
def H123 : List Str := ["h1".data, "h2".data, "h3".data]

/-- `soup.find("meta", attrs={key: val})` followed by `.get("content")`:
`none` when either no such tag exists or the tag has no `content` attribute
(both of which Python treats identically via falsiness). -/
def findMetaContent (soup : List HNode) (key val : Str) : Option Str :=
  match findTag (fun t a => decide (t = "meta".data ∧ getAttr a key = some val)) soup with
  | some (.el _ a _) => getAttr a ("content".data)
  | _ => none

/-- Python truthiness of an optional string: present and non-empty. -/
def otruthy : Option Str → Bool
  | some s => !s.isEmpty
  | none => false

/-- Simple first-element-with-tag lookup. -/
def findByTag (tag : Str) (soup : List HNode) : Option HNode :=
  findTag (fun t _ => decide (t = tag)) soup

/-- The record built by `extract_content` (the `url` key is added later by
`crawl_site`). -/
structure PageData where
  title : Str
  meta_description : Str
  h1 : Str
  content_snippet : Str
  content_length : Nat
  score : Nat
deriving DecidableEq, Repr

/-- Body of `extract_content` after the boilerplate `decompose` calls (the
Python function mutates its soup; the stripped soup is passed in explicitly so
that `crawl_site` can reuse it for link collection, as the source does). -/
def extractFromStripped (sd : List HNode) : PageData :=
  let title :=
    match findByTag ("title".data) sd with
    | some n => normalize_text (get_text [] n)
    | none => []
  let mdRaw := findMetaContent sd ("name".data) ("description".data)
  let ogRaw := findMetaContent sd ("property".data) ("og:description".data)
  let meta_desc :=
    if otruthy mdRaw then normalize_text (mdRaw.getD [])
    else if otruthy ogRaw then normalize_text (ogRaw.getD [])
    else []
  let h1 :=
    match findByTag ("h1".data) sd with
    | some n => normalize_text (get_text [] n)
    | none => []
  let mainN :=
    match findByTag ("main".data) sd with
    | some n => some n
    | none =>
      match findByTag ("article".data) sd with
      | some n => some n
      | none => findByTag ("body".data) sd
  let content_text :=
    match mainN with
    | some n => normalize_text (get_text [' '] n)
    | none => []
  let h_count := countTags H123 sd
  let content_length := content_text.length
  let score := content_length + (h_count * 80) + (meta_desc.length * 2)
  let snippet :=
    content_text.take 240 ++ (if 240 < content_text.length then "...".data else [])
  ⟨title, meta_desc, h1, snippet, content_length, score⟩

/-- `extract_content` from `durex_scraper.py`. -/
def extract_content (soup : List HNode) : PageData :=
  extractFromStripped (stripTags BOILERPLATE_TAGS soup)

/-! ### `urllib.robotparser.RobotFileParser` model (CPython 3.11)

`build_robot_parser` calls `rp.read()`, which fetches the robots.txt URL with
`urllib.request.urlopen`.  Only `HTTPError` is caught inside `read()`; any
transport-level error (`URLError`, timeouts, decode errors) propagates and is
caught by the scraper's own `except Exception`, which returns the parser
object unchanged — i.e. with `last_checked` still `0`.  The robots.txt
line-parsing state machine is not modelled: a successful fetch is represented
directly by the entry list it would produce (no claim exercises a non-empty
ruleset).  Percent-quoting inside `can_fetch` is modelled as the identity for
the same reason. -/

/-- A single `Allow`/`Disallow` line (`allowance = true` means allow). -/
structure RuleLine where
  path : Str
  allowance : Bool

/-- `RuleLine.applies_to(filename)`. -/
def RuleLine.applies_to (r : RuleLine) (filename : Str) : Bool :=
  decide (r.path = "*".data) || r.path.isPrefixOf filename

/-- A robots.txt entry: user agents plus rule lines. -/
structure Entry where
  useragents : List Str
  rulelines : List RuleLine

/-- `Entry.applies_to(useragent)`: the agent name is the part before the first
`/`, lowercased; an entry applies when it lists `*` or a substring of it. -/
def Entry.applies_to (e : Entry) (useragent : Str) : Bool :=
  let ua := pyLower (useragent.takeWhile (· != '/'))
  e.useragents.any fun agent =>
    decide (agent = "*".data) || isSubstringOf (pyLower agent) ua

/-- `Entry.allowance(filename)`: first applicable rule line wins; no line
means allow. -/
def Entry.allowance (e : Entry) (filename : Str) : Bool :=
  match e.rulelines.find? (fun l => l.applies_to filename) with
  | some l => l.allowance
  | none => true

/-- The `RobotFileParser` state relevant to `can_fetch`; `last_checked` is
`true` iff the Python attribute is non-zero (a parse happened). -/
structure RobotFileParser where
  entries : List Entry
  default_entry : Option Entry
  disallow_all : Bool
  allow_all : Bool
  last_checked : Bool

/-- The state set up by `RobotFileParser.__init__`. -/
def initRFP : RobotFileParser := ⟨[], none, false, false, false⟩

/-- The possible outcomes of `urlopen` + body parse inside
`RobotFileParser.read()`. -/
inductive ReadOutcome where
  | raised
  | httpError (code : Nat)
  | fetched (entries : List Entry) (default_entry : Option Entry)

/-- `RobotFileParser.read()`: a transport error propagates (`.error`); an
`HTTPError` with code 401/403 sets `disallow_all`, other 4xx codes set
`allow_all`, remaining codes leave the parser unread; a fetched body is parsed
and stamps `last_checked`. -/
def RobotFileParser.read (rp : RobotFileParser) (o : ReadOutcome) :
    Except Unit RobotFileParser :=
  match o with
  | .raised => .error ()
  | .httpError code =>
    if code = 401 ∨ code = 403 then .ok { rp with disallow_all := true }
    else if 400 ≤ code ∧ code < 500 then .ok { rp with allow_all := true }
    else .ok rp
  | .fetched es de =>
    .ok { rp with entries := es, default_entry := de, last_checked := true }

/-- `build_robot_parser` from `durex_scraper.py`: construct a parser, try to
`read()` it, and on any exception return the parser object as-is. -/
def buildRobotParser (o : ReadOutcome) : RobotFileParser :=
  match initRFP.read o with
  | .error _ => initRFP
  | .ok rp => rp

/-- `RobotFileParser.can_fetch(useragent, url)` (CPython 3.11): `disallow_all`
and `allow_all` first; an unread parser (`last_checked == 0`) answers `False`
for everything; otherwise the url's path/params/query/fragment are rebuilt
(quoting modelled as identity) and matched against the entries. -/
def can_fetch (rp : RobotFileParser) (useragent url : Str) : Except Unit Bool :=
  if rp.disallow_all then .ok false
  else if rp.allow_all then .ok true
  else if rp.last_checked = false then .ok false
  else
    match urlparse url with
    | .error e => .error e
    | .ok p =>
      let u0 := urlunsplit [] [] (if p.params ≠ [] then p.path ++ ';' :: p.params else p.path) p.query p.fragment
      let u1 := if u0 = [] then "/".data else u0
      match rp.entries.find? (fun e => e.applies_to useragent) with
      | some e => .ok (e.allowance u1)
      | none =>
        match rp.default_entry with
        | some e => .ok (e.allowance u1)
        | none => .ok true

/-! ### Crawl engine (`crawl_site` from `durex_scraper.py`)

The HTTP transport (`requests.Session.get`), the robots gate decision for a
given URL, and `urllib.parse.urljoin` are abstract parameters: the spec lists
the transport and HTML parsing as external collaborators, and no claim
depends on `urljoin`'s internals.  A fetch outcome carries the status code,
the `Content-Type` header and the parsed document of the response.  The
politeness sleep and each `session.get` call are recorded in an event trace so
that temporal claims about their interleaving can be stated. -/

/-- Outcome of `session.get(url)`: a `requests.RequestException`, or a
response with status code, Content-Type header and parsed body. -/
inductive FetchOutcome where
  | exn
  | resp (status : Nat) (content_type : Str) (doc : List HNode)

/-- The external collaborators and configuration of one crawl run. -/
structure CrawlEnv where
  canFetch : Str → Bool
  fetch : Str → FetchOutcome
  urljoin : Str → Str → Str
  maxPages : Nat

/-- Observable events of the crawl loop: a `session.get` call and a
`time.sleep(delay)` call. -/
inductive CrawlEvent where
  | fetchEv (url : Str)
  | sleepEv
deriving DecidableEq, Repr

/-- A finished page record (`data["url"] = url` plus the extractor output). -/
structure PageRecord where
  url : Str
  title : Str
  meta_description : Str
  h1 : Str
  content_snippet : Str
  content_length : Nat
  score : Nat
deriving DecidableEq, Repr

/-- Attach the url to the extractor output, as `crawl_site` does. -/
def mkRecord (url : Str) (d : PageData) : PageRecord :=
  ⟨url, d.title, d.meta_description, d.h1, d.content_snippet, d.content_length, d.score⟩

/-- The mutable state of the crawl loop.  `visited` models the Python set as
a duplicate-free list (every insertion is guarded), `trace` records the
fetch/sleep events. -/
structure CrawlState where
  queue : List Str
  visited : List Str
  results : List PageRecord
  trace : List CrawlEvent
deriving DecidableEq, Repr

/-- `visited.add(url)` for the list-modelled set. -/
def pySetAdd (v : List Str) (u : Str) : List Str := if u ∈ v then v else u :: v

/-- `soup.find_all("a", href=True)` followed by `a["href"]`: the href values
of all anchor elements carrying one, in document order. -/
def collectHrefs : List HNode → List Str
  | [] => []
  | .txt _ :: rest => collectHrefs rest
  | .el t a c :: rest =>
    (if t = "a".data then
      match getAttr a ("href".data) with
      | some h => [h]
      | none => []
     else []) ++ collectHrefs c ++ collectHrefs rest

/-- The link-collection loop of `crawl_site`: for each href,
`clean_url(urljoin(url, href))`, discard empty or foreign-domain results, and
keep those not already visited (in order; duplicates possible).  A `ValueError`
escaping `clean_url`/`same_domain` propagates, as in the source. -/
def collectLinks (env : CrawlEnv) (bd : Str) (pageUrl : Str) (visited : List Str) :
    List Str → Except Unit (List Str)
  | [] => .ok []
  | h :: t =>
    match clean_url (env.urljoin pageUrl h) with
    | .error e => .error e
    | .ok href =>
      if href = [] then collectLinks env bd pageUrl visited t
      else
        match same_domain href bd with
        | .error e => .error e
        | .ok sd =>
          if sd = false then collectLinks env bd pageUrl visited t
          else if href ∈ visited then collectLinks env bd pageUrl visited t
          else (collectLinks env bd pageUrl visited t).map (href :: ·)

/-- One iteration of the `while` body of `crawl_site` (the loop guard lives in
`crawlRun`).  Mirrors the source line by line: pop, re-clean, discard empty or
visited, robots gate, fetch with its failure modes, extraction, link
collection, mark visited, sleep. -/
def crawlStep (env : CrawlEnv) (bd : Str) (s : CrawlState) : Except Unit CrawlState :=
  match s.queue with
  | [] => .ok s
  | url0 :: rest =>
    match clean_url url0 with
    | .error e => .error e
    | .ok url =>
      if url = [] ∨ url ∈ s.visited then .ok { s with queue := rest }
      else if env.canFetch url = false then
        .ok { s with queue := rest, visited := pySetAdd s.visited url }
      else
        match env.fetch url with
        | .exn =>
          .ok { s with queue := rest, visited := pySetAdd s.visited url,
                       trace := s.trace ++ [.fetchEv url] }
        | .resp status ct doc =>
          if status ≠ 200 then
            .ok { s with queue := rest, visited := pySetAdd s.visited url,
                         trace := s.trace ++ [.fetchEv url] }
          else if isSubstringOf ("text/html".data) ct = false then
            .ok { s with queue := rest, visited := pySetAdd s.visited url,
                         trace := s.trace ++ [.fetchEv url] }
          else
            match collectLinks env bd url s.visited
                (collectHrefs (stripTags BOILERPLATE_TAGS doc)) with
            | .error e => .error e
            | .ok links =>
              .ok { queue := rest ++ links,
                    visited := pySetAdd s.visited url,
                    results := s.results ++
                      [mkRecord url (extractFromStripped (stripTags BOILERPLATE_TAGS doc))],
                    trace := s.trace ++ [.fetchEv url, .sleepEv] }

/-- The crawl loop: `while queue and len(visited) < max_pages`, with explicit
fuel (the source loop terminates on any finite site; claims hold for every
fuel value). -/
def crawlRun (env : CrawlEnv) (bd : Str) : Nat → CrawlState → Except Unit CrawlState
  | 0, s => .ok s
  | n + 1, s =>
    if s.queue ≠ [] ∧ s.visited.length < env.maxPages then
      match crawlStep env bd s with
      | .error e => .error e
      | .ok s' => crawlRun env bd n s'
    else .ok s

/-- The initial crawl state: `visited = set()`, `queue = deque([base_url])`. -/
def initCrawlState (base_url : Str) : CrawlState := ⟨[base_url], [], [], []⟩

/-- `crawl_site` up to its final state (including the event trace):
compute `base_domain`, build the initial state, loop. -/
def crawl_state_run (env : CrawlEnv) (base_url : Str) (fuel : Nat) :
    Except Unit CrawlState :=
  match urlparse base_url with
  | .error e => .error e
  | .ok p =>
    crawlRun env (pyLower (pyReplace ("www.".data) [] p.netloc)) fuel
      (initCrawlState base_url)

/-- `crawl_site` from `durex_scraper.py`: the list of page records it
returns. -/
def crawl_site (env : CrawlEnv) (base_url : Str) (fuel : Nat) :
    Except Unit (List PageRecord) :=
  (crawl_state_run env base_url fuel).map CrawlState.results

/-- Modelled from the spec (C9): a trace in which no two fetches are adjacent,
i.e. between any two fetches some sleep intervenes. -/
def noConsecutiveFetches : List CrawlEvent → Bool
  | .fetchEv _ :: .fetchEv _ :: _ => false
  | _ :: rest => noConsecutiveFetches rest
  | [] => true

/-- Modelled from the spec (C2): the claim's transport-failure class — an
exception, a non-2xx status, or a non-HTML content type.  The source instead
treats every status other than 200 as a failure. -/
def specTransportFailure : FetchOutcome → Bool
  | .exn => true
  | .resp status ct _ =>
    !(200 ≤ status && status < 300) || !(isSubstringOf ("text/html".data) ct)

/-- The source's transport-failure class: exception, status ≠ 200, or
non-HTML content type (`durex_scraper.py`, `crawl_site`). -/
def codeTransportFailure : FetchOutcome → Bool
  | .exn => true
  | .resp status ct _ =>
    !(status = 200 : Bool) || !(isSubstringOf ("text/html".data) ct)

/-- The scoring formula of `extract_content` as an arithmetic function. -/
def scoreFormula (cl hc ml : Nat) : Nat := cl + (hc * 80) + (ml * 2)

/-- The heading count used by the scorer: h1/h2/h3 elements surviving the
boilerplate strip. -/
def hCountOf (soup : List HNode) : Nat := countTags H123 (stripTags BOILERPLATE_TAGS soup)

/-! ### Predicates and concrete instances used by the theorems -/

/-- The last path segment: everything after the last `/` (the whole string
when there is no `/`).  `_splitparams` only ever splits params inside this
segment. -/
def lastSeg (s : Str) : Str := (s.reverse.takeWhile (· != '/')).reverse

/-- Character-level facts `urlsplit` guarantees about a netloc it returns. -/
def NetlocOk (nl : Str) : Prop :=
  (∀ c ∈ nl, notNetlocDelim c = true ∧ isAsciiChar c = true ∧ isUnsafeUrlChar c = false) ∧
  '[' ∉ nl ∧ ']' ∉ nl

/-- Character-level facts `urlsplit` guarantees about a path it returns. -/
def PathOk (pa : Str) : Prop :=
  ∀ c ∈ pa, c ≠ '#' ∧ c ≠ '?' ∧ isUnsafeUrlChar c = false

/-- Character-level facts `urlsplit` guarantees about a query it returns. -/
def QueryOk (q : Str) : Prop := ∀ c ∈ q, c ≠ '#' ∧ isUnsafeUrlChar c = false

/-- Facts `urlparse` guarantees about the params it returns. -/
def ParamsOk (pr : Str) : Prop :=
  ∀ c ∈ pr, c ≠ '#' ∧ c ≠ '?' ∧ isUnsafeUrlChar c = false ∧ c ≠ '/'

/-- The crawl-loop invariant of claim C7: the visited set is duplicate-free
(it models a Python set), the result list never outgrows it, and it never
exceeds `max_pages`. -/
def crawlInv (maxPages : Nat) (s : CrawlState) : Prop :=
  s.visited.Nodup ∧ s.results.length ≤ s.visited.length ∧ s.visited.length ≤ maxPages

/-- The record invariant of claim C8: record urls are pairwise distinct and
all of them are in the visited set. -/
def recordsOk (s : CrawlState) : Prop :=
  (s.results.map PageRecord.url).Nodup ∧ ∀ r ∈ s.results, r.url ∈ s.visited

/-- A two-link page used by the concrete crawl runs. -/
def docLinks : List HNode :=
  [.el ("body".data) [] [
    .el ("a".data) [("href".data, "http://s.t/a".data)] [],
    .el ("a".data) [("href".data, "http://s.t/b".data)] []]]

/-- Environment for the C9 counterexample: the base page succeeds and links to
two pages whose fetches return 404. -/
def envC9 : CrawlEnv :=
  { canFetch := fun _ => true,
    fetch := fun u =>
      if u = "http://s.t/".data then .resp 200 ("text/html".data) docLinks
      else .resp 404 ("text/html".data) [],
    urljoin := fun _ h => h,
    maxPages := 10 }

/-- Environment for the C2 counterexample: every fetch answers 202 with an
HTML body. -/
def envC2 : CrawlEnv :=
  { canFetch := fun _ => true,
    fetch := fun _ => .resp 202 ("text/html".data) docLinks,
    urljoin := fun _ h => h,
    maxPages := 10 }

/-- Environment whose fetches all raise, used by concrete witnesses. -/
def envExn : CrawlEnv :=
  { canFetch := fun _ => true,
    fetch := fun _ => .exn,
    urljoin := fun _ h => h,
    maxPages := 2 }

/-- Environment whose fetches all answer 404, used by concrete witnesses. -/
def env404 : CrawlEnv :=
  { canFetch := fun _ => true,
    fetch := fun _ => .resp 404 ("text/html".data) [],
    urljoin := fun _ h => h,
    maxPages := 5 }

/-- Document for the C6 counterexample: a `description` meta tag is present
but its `content` is empty, while `og:description` has content. -/
def docC6 : List HNode :=
  [.el ("head".data) [] [
    .el ("meta".data) [("name".data, "description".data), ("content".data, [])] [],
    .el ("meta".data) [("property".data, "og:description".data), ("content".data, "hello".data)] []]]

/-! ### List helper lemmas -/

theorem mem_of_mem_takeWhile {p : Char → Bool} {l : Str} {c : Char}
    (h : c ∈ l.takeWhile p) : c ∈ l := by
  have hl := List.takeWhile_append_dropWhile p l
  rw [← hl]
  exact List.mem_append_left _ h

theorem mem_of_mem_dropWhile {p : Char → Bool} {l : Str} {c : Char}
    (h : c ∈ l.dropWhile p) : c ∈ l := by
  have hl := List.takeWhile_append_dropWhile p l
  rw [← hl]
  exact List.mem_append_right _ h

theorem takeWhile_append_all {p : Char → Bool} :
    ∀ {xs : Str}, (∀ c ∈ xs, p c = true) → ∀ ys : Str,
      (xs ++ ys).takeWhile p = xs ++ ys.takeWhile p ∧
      (xs ++ ys).dropWhile p = ys.dropWhile p := by
  intro xs
  induction xs with
  | nil => intro _ ys; simp
  | cons a t ih =>
    intro h ys
    have ha : p a = true := h a (by simp)
    have ht := ih (fun c hc => h c (by simp [hc])) ys
    simp [List.takeWhile_cons, List.dropWhile_cons, ha, ht.1, ht.2]

theorem takeWhile_all_eq {p : Char → Bool} {xs : Str} (h : ∀ c ∈ xs, p c = true) :
    xs.takeWhile p = xs ∧ xs.dropWhile p = [] := by
  have := takeWhile_append_all h []
  simpa using this

theorem takeWhile_append_stop {p : Char → Bool} {xs : Str} (h : ∀ c ∈ xs, p c = true)
    {y : Char} (hy : p y = false) (ys : Str) :
    (xs ++ y :: ys).takeWhile p = xs ∧ (xs ++ y :: ys).dropWhile p = y :: ys := by
  have := takeWhile_append_all h (y :: ys)
  simp [List.takeWhile_cons, List.dropWhile_cons, hy] at this
  exact this

theorem dropWhile_head_false {p : Char → Bool} :
    ∀ {s : Str} {y : Char} {ys : Str}, s.dropWhile p = y :: ys → p y = false := by
  intro s
  induction s with
  | nil => intro y ys h; simp at h
  | cons a t ih =>
    intro y ys h
    by_cases ha : p a = true
    · rw [List.dropWhile_cons, if_pos ha] at h
      exact ih h
    · rw [List.dropWhile_cons, if_neg ha] at h
      cases h
      simpa using ha

theorem dropWhile_mem_head {d : Char} :
    ∀ {s : Str}, d ∈ s → ∃ ys, s.dropWhile (· != d) = d :: ys := by
  intro s
  induction s with
  | nil => intro h; simp at h
  | cons a t ih =>
    intro h
    by_cases ha : a = d
    · subst ha
      exact ⟨t, by simp [List.dropWhile_cons]⟩
    · have hd : d ∈ t := by
        rcases List.mem_cons.mp h with h' | h'
        · exact absurd h'.symm ha
        · exact h'
      rcases ih hd with ⟨ys, hys⟩
      exact ⟨ys, by simp [List.dropWhile_cons, bne_iff_ne.mpr ha, hys]⟩

/-! ### Split-function lemmas -/

theorem splitOnceD_not_mem {d : Char} {s : Str} (h : d ∉ s) : splitOnceD d s = (s, []) := by
  have hall : ∀ c ∈ s, (c != d) = true := fun c hc =>
    bne_iff_ne.mpr (fun e => h (e ▸ hc))
  have := takeWhile_all_eq hall
  simp [splitOnceD, this.1, this.2]

theorem splitOnceD_split {d : Char} {xs ys : Str} (h : ∀ c ∈ xs, c ≠ d) :
    splitOnceD d (xs ++ d :: ys) = (xs, ys) := by
  have := takeWhile_append_stop (p := (· != d))
    (fun c hc => bne_iff_ne.mpr (h c hc)) (y := d) (by simp) ys
  simp [splitOnceD, this.1, this.2]

theorem splitOnceD_fst_spec {d : Char} {s : Str} :
    ∀ c ∈ (splitOnceD d s).1, c ≠ d ∧ c ∈ s := by
  intro c hc
  simp only [splitOnceD] at hc
  have h1 : (c != d) = true := List.mem_takeWhile_imp (p := (· != d)) hc
  exact ⟨bne_iff_ne.mp h1, mem_of_mem_takeWhile hc⟩

theorem splitOnceD_snd_spec {d : Char} {s : Str} :
    ∀ c ∈ (splitOnceD d s).2, c ∈ s := by
  intro c hc
  exact mem_of_mem_dropWhile (List.mem_of_mem_drop hc)

theorem splitOnceD_eq (d : Char) (s : Str) :
    (d ∉ s ∧ (splitOnceD d s).1 = s ∧ (splitOnceD d s).2 = []) ∨
    s = (splitOnceD d s).1 ++ d :: (splitOnceD d s).2 := by
  by_cases h : d ∈ s
  · right
    rcases dropWhile_mem_head h with ⟨ys, hys⟩
    have hdec := List.takeWhile_append_dropWhile (· != d) s
    rw [hys] at hdec
    simp only [splitOnceD, hys, List.drop_succ_cons, List.drop_zero]
    exact hdec.symm
  · left
    have := splitOnceD_not_mem h
    exact ⟨h, by rw [this], by rw [this]⟩

theorem splitOnceOpt_none {d : Char} {s : Str} (h : d ∉ s) : splitOnceOpt d s = none := by
  simp [splitOnceOpt, h]

theorem splitOnceOpt_rejoin {d : Char} {a b : Str} (ha : ∀ c ∈ a, c ≠ d) :
    splitOnceOpt d (a ++ d :: b) = some (a, b) := by
  have hm : d ∈ a ++ d :: b := List.mem_append_right _ (by simp)
  have h2 := takeWhile_append_stop (p := (· != d))
    (fun c hc => bne_iff_ne.mpr (ha c hc)) (y := d) (by simp) b
  simp [splitOnceOpt, hm, h2.1, h2.2]

theorem lastSegSplit_decomp (c : Char) (s : Str) :
    s = (lastSegSplit c s).1 ++ (lastSegSplit c s).2 := by
  simp only [lastSegSplit]
  rw [← List.reverse_append, List.takeWhile_append_dropWhile, List.reverse_reverse]

theorem lastSegSplit_snd_spec (c : Char) (s : Str) :
    ∀ x ∈ (lastSegSplit c s).2, x ≠ c ∧ x ∈ s := by
  intro x hx
  simp only [lastSegSplit, List.mem_reverse] at hx
  exact ⟨bne_iff_ne.mp (List.mem_takeWhile_imp (p := (· != c)) hx),
         List.mem_reverse.mp (mem_of_mem_takeWhile hx)⟩

theorem lastSegSplit_fst_last {c : Char} {s : Str} (h : c ∈ s) :
    ∃ pre0, (lastSegSplit c s).1 = pre0 ++ [c] := by
  rcases dropWhile_mem_head (List.mem_reverse.mpr h) with ⟨ys, hys⟩
  refine ⟨ys.reverse, ?_⟩
  simp [lastSegSplit, hys]

theorem lastSeg_eq_lastSegSplit (s : Str) : lastSeg s = (lastSegSplit '/' s).2 := rfl

theorem lastSeg_no_slash {s : Str} (h : '/' ∉ s) : lastSeg s = s := by
  have hall : ∀ c ∈ s.reverse, (c != '/') = true := fun c hc =>
    bne_iff_ne.mpr (fun e => h (e ▸ List.mem_reverse.mp hc))
  simp [lastSeg, (takeWhile_all_eq hall).1]

theorem lastSeg_append {pre0 b : Str} (hb : ∀ x ∈ b, x ≠ '/') :
    lastSeg ((pre0 ++ ['/']) ++ b) = b := by
  have hall : ∀ c ∈ b.reverse, (c != '/') = true := fun c hc =>
    bne_iff_ne.mpr (hb c (List.mem_reverse.mp hc))
  have h2 := takeWhile_append_stop (p := (· != '/')) hall (y := '/') (by simp) pre0.reverse
  simp only [lastSeg, List.reverse_append, List.reverse_cons, List.reverse_nil,
    List.nil_append, List.append_assoc, List.singleton_append]
  rw [h2.1, List.reverse_reverse]

theorem lastSeg_mem {s : Str} : ∀ c ∈ lastSeg s, c ∈ s ∧ c ≠ '/' := by
  intro c hc
  rw [lastSeg_eq_lastSegSplit] at hc
  have := lastSegSplit_snd_spec '/' s c hc
  exact ⟨this.2, this.1⟩

theorem splitOnceOpt_mem {d : Char} {s : Str} (h : d ∈ s) :
    splitOnceOpt d s = some (splitOnceD d s) ∧
    s = (splitOnceD d s).1 ++ d :: (splitOnceD d s).2 := by
  refine ⟨by simp [splitOnceOpt, splitOnceD, h], ?_⟩
  rcases splitOnceD_eq d s with ⟨hd, _⟩ | h2
  · exact absurd h hd
  · exact h2

theorem lastSegSplit_append_no {c : Char} {s w : Str} (hw : ∀ x ∈ w, x ≠ c) :
    lastSegSplit c (s ++ w) = ((lastSegSplit c s).1, (lastSegSplit c s).2 ++ w) := by
  have hall : ∀ x ∈ w.reverse, (x != c) = true := fun x hx =>
    bne_iff_ne.mpr (hw x (List.mem_reverse.mp hx))
  have h2 := takeWhile_append_all (p := (· != c)) hall s.reverse
  simp only [lastSegSplit, List.reverse_append, h2.1, h2.2, List.reverse_reverse]

theorem splitparams_spec {x : Str} (hx : ';' ∈ x) :
    (∃ t, x = (splitparams x).1 ++ t) ∧
    (∀ c ∈ (splitparams x).2, c ∈ x ∧ c ≠ '/') ∧
    (';' ∉ lastSeg (splitparams x).1) ∧
    ('/' ∈ x → (splitparams x).1 ≠ []) := by
  by_cases hs : '/' ∈ x
  · have hdec := lastSegSplit_decomp '/' x
    by_cases hsem : ';' ∈ (lastSegSplit '/' x).2
    · rcases splitOnceOpt_mem hsem with ⟨hopt, hpost⟩
      have hres : splitparams x =
          ((lastSegSplit '/' x).1 ++ (splitOnceD ';' (lastSegSplit '/' x).2).1,
           (splitOnceD ';' (lastSegSplit '/' x).2).2) := by
        simp [splitparams, hs, hopt]
      rw [hres]
      rcases lastSegSplit_fst_last hs with ⟨pre0, hpre⟩
      refine ⟨⟨';' :: (splitOnceD ';' (lastSegSplit '/' x).2).2, ?_⟩, ?_, ?_, ?_⟩
      · conv_lhs => rw [hdec, hpost]
        simp
      · intro c hc
        have h1 : c ∈ (lastSegSplit '/' x).2 := splitOnceD_snd_spec c hc
        have h2 := lastSegSplit_snd_spec '/' x c h1
        exact ⟨h2.2, h2.1⟩
      · have hb1 : ∀ y ∈ (splitOnceD ';' (lastSegSplit '/' x).2).1, y ≠ '/' := by
          intro y hy
          exact (lastSegSplit_snd_spec '/' x y (splitOnceD_fst_spec y hy).2).1
        rw [hpre, lastSeg_append hb1]
        intro hc
        exact (splitOnceD_fst_spec _ hc).1 rfl
      · intro _
        rw [hpre]
        simp
    · have hres : splitparams x = (x, []) := by
        simp [splitparams, hs, splitOnceOpt_none hsem]
      rw [hres]
      refine ⟨⟨[], by simp⟩, by simp, ?_, ?_⟩
      · rw [lastSeg_eq_lastSegSplit]
        exact hsem
      · intro _ hxe
        simp only at hxe
        rw [hxe] at hs
        simp at hs
  · rcases splitOnceOpt_mem hx with ⟨hopt, hxeq⟩
    have hres : splitparams x = splitOnceD ';' x := by
      simp [splitparams, hs, hopt]
    rw [hres]
    refine ⟨⟨';' :: (splitOnceD ';' x).2, hxeq⟩, ?_, ?_, fun hc => absurd hc hs⟩
    · intro c hc
      have h1 : c ∈ x := splitOnceD_snd_spec c hc
      exact ⟨h1, fun e => hs (e ▸ h1)⟩
    · have hnos : '/' ∉ (splitOnceD ';' x).1 := fun hc =>
        hs (splitOnceD_fst_spec _ hc).2
      rw [lastSeg_no_slash hnos]
      intro hc
      exact (splitOnceD_fst_spec _ hc).1 rfl

theorem splitparams_rejoin {path params : Str} (hp : ∀ c ∈ params, c ≠ '/')
    (hL : ';' ∉ lastSeg path) :
    splitparams (path ++ ';' :: params) = (path, params) := by
  have hLc : ∀ c ∈ lastSeg path, c ≠ ';' := fun c hc e => hL (e ▸ hc)
  by_cases hs : '/' ∈ path
  · have hmem : '/' ∈ path ++ ';' :: params := List.mem_append_left _ hs
    have hw : ∀ x ∈ ';' :: params, x ≠ '/' := by
      intro x hx
      rcases List.mem_cons.mp hx with h | h
      · subst h; decide
      · exact hp x h
    have hsplit := lastSegSplit_append_no (s := path) hw
    have hopt : splitOnceOpt ';' ((lastSegSplit '/' path).2 ++ ';' :: params) =
        some ((lastSegSplit '/' path).2, params) := by
      apply splitOnceOpt_rejoin
      intro c hc
      exact hLc c (by rw [lastSeg_eq_lastSegSplit]; exact hc)
    have : splitparams (path ++ ';' :: params) =
        ((lastSegSplit '/' path).1 ++ (lastSegSplit '/' path).2, params) := by
      simp [splitparams, hmem, hsplit, hopt]
    rw [this, ← lastSegSplit_decomp]
  · have hmem : '/' ∉ path ++ ';' :: params := by
      intro hc
      rcases List.mem_append.mp hc with h | h
      · exact hs h
      · rcases List.mem_cons.mp h with h' | h'
        · exact absurd h'.symm (by decide)
        · exact hp '/' h' rfl
    have hLc' : ∀ c ∈ path, c ≠ ';' := by
      rw [lastSeg_no_slash hs] at hLc
      exact hLc
    have hopt := splitOnceOpt_rejoin (b := params) hLc'
    simp [splitparams, hmem, hopt]

theorem splitparams_noparams {x : Str} (hL : ';' ∉ lastSeg x) (hx : ';' ∈ x) :
    splitparams x = (x, []) := by
  have hs : '/' ∈ x := by
    by_contra hns
    rw [lastSeg_no_slash hns] at hL
    exact hL hx
  have hnone : splitOnceOpt ';' (lastSegSplit '/' x).2 = none := by
    apply splitOnceOpt_none
    rw [← lastSeg_eq_lastSegSplit]
    exact hL
  simp [splitparams, hs, hnone]

/-! ### `urlsplit` and `urlparse` characterisation -/

theorem preprocess_no_unsafe {s : Str} : ∀ c ∈ preprocessUrl s, isUnsafeUrlChar c = false := by
  intro c hc
  simp only [preprocessUrl, removeUnsafe] at hc
  have := List.mem_filter.mp hc
  simpa using this.2

theorem splitScheme_snd_mem {u : Str} : ∀ c ∈ (splitScheme u).2, c ∈ u := by
  intro c hc
  simp only [splitScheme] at hc
  split at hc
  · split at hc
    · exact mem_of_mem_dropWhile (List.mem_of_mem_drop hc)
    · exact hc
  · exact hc

theorem netlocSplit_ok_spec {u nl rest : Str} (h : netlocSplit u = .ok (nl, rest)) :
    (∀ c ∈ nl, notNetlocDelim c = true ∧ isAsciiChar c = true) ∧
    ('[' ∉ nl ∧ ']' ∉ nl) ∧
    (∀ c ∈ nl, c ∈ u) ∧ (∀ c ∈ rest, c ∈ u) ∧
    (nl = [] ∨ rest = [] ∨ ∃ y ys, rest = y :: ys ∧ notNetlocDelim y = false) := by
  unfold netlocSplit at h
  split at h
  · rename_i rest0
    split at h
    · exact absurd h (by simp)
    · split at h
      · exact absurd h (by simp)
      · rename_i hbr hascii
        simp only [Except.ok.injEq, Prod.mk.injEq] at h
        obtain ⟨hnl, hrest⟩ := h
        subst hnl
        subst hrest
        push_neg at hbr
        refine ⟨?_, ⟨hbr.1, hbr.2⟩, ?_, ?_, ?_⟩
        · intro c hc
          refine ⟨List.mem_takeWhile_imp (p := notNetlocDelim) hc, ?_⟩
          rw [not_not] at hascii
          exact List.all_eq_true.mp hascii c hc
        · intro c hc
          exact List.mem_cons_of_mem _ (List.mem_cons_of_mem _ (mem_of_mem_takeWhile hc))
        · intro c hc
          exact List.mem_cons_of_mem _ (List.mem_cons_of_mem _ (mem_of_mem_dropWhile hc))
        · right
          cases hr : rest0.dropWhile notNetlocDelim with
          | nil => exact Or.inl rfl
          | cons y ys => exact Or.inr ⟨y, ys, rfl, dropWhile_head_false hr⟩
  · simp only [Except.ok.injEq, Prod.mk.injEq] at h
    obtain ⟨hnl, hrest⟩ := h
    subst hnl
    subst hrest
    exact ⟨by simp, ⟨by simp, by simp⟩, by simp, fun c hc => hc, Or.inl rfl⟩

theorem urlsplit_ok_spec {u : Str} {r : SplitResult} (h : urlsplit u = .ok r) :
    NetlocOk r.netloc ∧ PathOk r.path ∧ QueryOk r.query ∧
    (r.netloc ≠ [] → r.path = [] ∨ ∃ t, r.path = '/' :: t) := by
  unfold urlsplit at h
  cases hns : netlocSplit (splitScheme (preprocessUrl u)).2 with
  | error e => rw [hns] at h; exact absurd h (by simp)
  | ok pr =>
    obtain ⟨nl, u3⟩ := pr
    rw [hns] at h
    simp only [Except.ok.injEq] at h
    subst h
    have hspec := netlocSplit_ok_spec hns
    have hmem_u3 : ∀ c ∈ u3, isUnsafeUrlChar c = false := by
      intro c hc
      exact preprocess_no_unsafe c (splitScheme_snd_mem c (hspec.2.2.2.1 c hc))
    have hmem_nl : ∀ c ∈ nl, isUnsafeUrlChar c = false := by
      intro c hc
      exact preprocess_no_unsafe c (splitScheme_snd_mem c (hspec.2.2.1 c hc))
    refine ⟨⟨?_, hspec.2.1⟩, ?_, ?_, ?_⟩
    · intro c hc
      exact ⟨(hspec.1 c hc).1, (hspec.1 c hc).2, hmem_nl c hc⟩
    · intro c hc
      have h1 := splitOnceD_fst_spec (d := '?') c hc
      have h2 := splitOnceD_fst_spec (d := '#') c h1.2
      exact ⟨h2.1, h1.1, hmem_u3 c h2.2⟩
    · intro c hc
      have h1 := splitOnceD_snd_spec (d := '?') c hc
      have h2 := splitOnceD_fst_spec (d := '#') c h1
      exact ⟨h2.1, hmem_u3 c h2.2⟩
    · intro hnl
      rcases hspec.2.2.2.2 with h0 | h0 | ⟨y, ys, hy, hyd⟩
      · exact absurd h0 hnl
      · subst h0
        left
        simp [splitOnceD]
      · subst hy
        have : y = '/' ∨ y = '?' ∨ y = '#' := by
          by_contra hc
          push_neg at hc
          simp [notNetlocDelim, hc.1, hc.2.1, hc.2.2] at hyd
        rcases this with h | h | h
        · subst h
          right
          refine ⟨((splitOnceD '?' (splitOnceD '#' ('/' :: ys)).1).1).tail, ?_⟩
          simp [splitOnceD, List.takeWhile_cons]
        · subst h
          left
          simp [splitOnceD, List.takeWhile_cons]
        · subst h
          left
          simp [splitOnceD, List.takeWhile_cons]

theorem urlparse_ok_spec {u : Str} {p : ParseResult} (h : urlparse u = .ok p) :
    ∃ r, urlsplit u = .ok r ∧ p.scheme = r.scheme ∧ p.netloc = r.netloc ∧
      p.query = r.query ∧ p.fragment = r.fragment ∧
      (∃ t, r.path = p.path ++ t) ∧
      (∀ c ∈ p.params, c ∈ r.path ∧ c ≠ '/') ∧
      (p.scheme ∈ uses_params → ';' ∉ lastSeg p.path) ∧
      ('/' ∈ r.path → p.path ≠ []) := by
  unfold urlparse at h
  cases hus : urlsplit u with
  | error e => rw [hus] at h; exact absurd h (by simp)
  | ok r =>
    rw [hus] at h
    split at h
    · rename_i e he
      cases he
    · rename_i r2 hr2
      injection hr2 with hr2
      subst hr2
      refine ⟨r, rfl, ?_⟩
      split at h
      · rename_i hcond
        simp only [Except.ok.injEq] at h
        subst h
        have hsp := splitparams_spec hcond.2
        exact ⟨rfl, rfl, rfl, rfl,
          by rcases hsp.1 with ⟨t, ht⟩; exact ⟨t, by simpa using ht⟩,
          by intro c hc; exact hsp.2.1 c hc,
          fun _ => hsp.2.2.1, fun hs => hsp.2.2.2 hs⟩
      · rename_i hcond
        simp only [Except.ok.injEq] at h
        subst h
        refine ⟨rfl, rfl, rfl, rfl, ⟨[], by simp⟩, by simp, ?_, ?_⟩
        · intro hsch hsem
          have hsem2 : ';' ∈ r.path := (lastSeg_mem _ hsem).1
          exact hcond ⟨hsch, hsem2⟩
        · intro hs hpe
          simp only at hpe
          rw [hpe] at hs
          simp at hs

/-! ### Reassembly: parsing a rebuilt URL recovers its components -/

theorem splitScheme_literal {lit : Str} (h : lit = "http".data ∨ lit = "https".data)
    (rest : Str) : splitScheme (lit ++ ':' :: rest) = (lit, rest) := by
  have hmem : ':' ∈ lit ++ ':' :: rest := List.mem_append_right _ (by simp)
  have hall : ∀ c ∈ lit, (c != ':') = true := by
    rcases h with h | h <;> subst h <;> decide
  have hsp := takeWhile_append_stop (p := (· != ':')) hall (y := ':') (by simp) rest
  have hlow : pyLower lit = lit := by
    rcases h with h | h <;> subst h <;> decide
  have hne : lit ≠ [] := by
    rcases h with h | h <;> subst h <;> decide
  have hhead : isAsciiAlpha (lit.headD 'a') = true := by
    rcases h with h | h <;> subst h <;> decide
  have hsc : lit.all isSchemeChar = true := by
    rcases h with h | h <;> subst h <;> decide
  simp only [splitScheme, hmem, if_pos, hsp.1, hsp.2]
  rw [if_pos ⟨hne, hhead, hsc⟩, hlow]
  simp

theorem netlocSplit_reassemble {nl tail2 : Str}
    (hnl : ∀ c ∈ nl, notNetlocDelim c = true ∧ isAsciiChar c = true)
    (hbr : '[' ∉ nl ∧ ']' ∉ nl)
    (htail : tail2 = [] ∨ ∃ y ys, tail2 = y :: ys ∧ notNetlocDelim y = false) :
    netlocSplit ('/' :: '/' :: (nl ++ tail2)) = .ok (nl, tail2) := by
  have hsp : (nl ++ tail2).takeWhile notNetlocDelim = nl ∧
      (nl ++ tail2).dropWhile notNetlocDelim = tail2 := by
    rcases htail with h0 | ⟨y, ys, hy, hyd⟩
    · subst h0
      have := takeWhile_all_eq (fun c hc => (hnl c hc).1)
      simp [this.1, this.2]
    · subst hy
      exact takeWhile_append_stop (fun c hc => (hnl c hc).1) hyd ys
  have hallascii : nl.all isAsciiChar = true :=
    List.all_eq_true.mpr (fun c hc => (hnl c hc).2)
  simp only [netlocSplit, hsp.1, hsp.2]
  rw [if_neg (by push_neg; exact hbr), if_neg (by simp [hallascii])]

theorem urlunsplit_shape {sch nl pp q : Str} (hsch : sch ≠ []) (hnl : nl ≠ [])
    (hpp : pp = [] ∨ ∃ t, pp = '/' :: t) :
    urlunsplit sch nl pp q [] =
      sch ++ ':' :: '/' :: '/' :: (nl ++ pp ++ (if q ≠ [] then '?' :: q else [])) := by
  have hnop : (if pp ≠ [] ∧ pp.take 1 ≠ ['/'] then '/' :: pp else pp) = pp := by
    rcases hpp with h0 | ⟨t, ht⟩
    · rw [if_neg]
      intro hc
      exact hc.1 h0
    · rw [if_neg]
      intro hc
      rw [ht] at hc
      simp at hc
  simp only [urlunsplit]
  rw [if_pos (Or.inl hnl), hnop, if_pos hsch]
  by_cases hq : q = []
  · subst hq
    simp
  · rw [if_pos hq, if_neg (by simp), if_pos hq]
    simp

theorem urlunparse_shape {sch nl pa pr q : Str} (hsch : sch ≠ []) (hnl : nl ≠ [])
    (hpp : (if pr ≠ [] then pa ++ ';' :: pr else pa) = [] ∨
           ∃ t, (if pr ≠ [] then pa ++ ';' :: pr else pa) = '/' :: t) :
    urlunparse ⟨sch, nl, pa, pr, q, []⟩ =
      sch ++ ':' :: '/' :: '/' ::
        (nl ++ (if pr ≠ [] then pa ++ ';' :: pr else pa) ++
          (if q ≠ [] then '?' :: q else [])) := by
  have h0 : urlunparse ⟨sch, nl, pa, pr, q, []⟩ =
      urlunsplit sch nl (if pr ≠ [] then pa ++ ';' :: pr else pa) q [] := rfl
  rw [h0, urlunsplit_shape hsch hnl hpp]

theorem urlsplit_build {u0 sch rest nl u3 pa2 q2 : Str}
    (h1 : splitScheme (preprocessUrl u0) = (sch, rest))
    (h2 : netlocSplit rest = .ok (nl, u3))
    (h3 : splitOnceD '#' u3 = (u3, []))
    (h4 : splitOnceD '?' u3 = (pa2, q2)) :
    urlsplit u0 = .ok ⟨sch, nl, pa2, q2, []⟩ := by
  unfold urlsplit
  rw [h1]
  dsimp only
  rw [h2]
  dsimp only
  rw [h3]
  dsimp only
  rw [h4]

theorem preprocess_eq_self {s : Str} (h1 : ∀ c ∈ s, isUnsafeUrlChar c = false)
    (h2 : s = [] ∨ ∃ c t, s = c :: t ∧ isC0orSpace c = false) : preprocessUrl s = s := by
  have hstrip : lstripC0 s = s := by
    rcases h2 with h0 | ⟨c, t, hct, hc⟩
    · subst h0; rfl
    · subst hct
      simp [lstripC0, List.dropWhile_cons, hc]
  simp only [preprocessUrl, hstrip, removeUnsafe]
  rw [List.filter_eq_self]
  intro c hc
  simp [h1 c hc]

theorem urlsplit_reassemble_gen {sch nl pp q : Str}
    (hsch : sch = "http".data ∨ sch = "https".data)
    (hN : NetlocOk nl)
    (hpp1 : ∀ c ∈ pp, c ≠ '#' ∧ c ≠ '?' ∧ isUnsafeUrlChar c = false)
    (hq1 : QueryOk q)
    (hppH : pp = [] ∨ ∃ t, pp = '/' :: t) :
    urlsplit (sch ++ ':' :: '/' :: '/' :: (nl ++ pp ++ (if q ≠ [] then '?' :: q else []))) =
      .ok ⟨sch, nl, pp, q, []⟩ := by
  have hschne : sch ≠ [] := by rcases hsch with h | h <;> subst h <;> decide
  have hqt : ∀ c ∈ (if q ≠ [] then '?' :: q else []), c = '?' ∨ c ∈ q := by
    intro c hc
    by_cases hq : q = []
    · rw [if_neg (by simp [hq])] at hc
      simp at hc
    · rw [if_pos hq] at hc
      rcases List.mem_cons.mp hc with h | h
      · exact Or.inl h
      · exact Or.inr h
  have hschsafe : ∀ c ∈ sch, isUnsafeUrlChar c = false := by
    rcases hsch with he | he <;> subst he <;> decide
  have hs : ∀ c ∈ sch ++ ':' :: '/' :: '/' :: (nl ++ pp ++ (if q ≠ [] then '?' :: q else [])),
      isUnsafeUrlChar c = false := by
    intro c hc
    rcases List.mem_append.mp hc with h | h
    · exact hschsafe c h
    · rcases List.mem_cons.mp h with h | h
      · subst h; decide
      · rcases List.mem_cons.mp h with h | h
        · subst h; decide
        · rcases List.mem_cons.mp h with h | h
          · subst h; decide
          · rcases List.mem_append.mp h with h | h
            · rcases List.mem_append.mp h with h | h
              · exact (hN.1 c h).2.2
              · exact (hpp1 c h).2.2
            · rcases hqt c h with h | h
              · subst h; decide
              · exact (hq1 c h).2
  have hpre : preprocessUrl
      (sch ++ ':' :: '/' :: '/' :: (nl ++ pp ++ (if q ≠ [] then '?' :: q else []))) =
      sch ++ ':' :: '/' :: '/' :: (nl ++ pp ++ (if q ≠ [] then '?' :: q else [])) := by
    apply preprocess_eq_self hs
    right
    rcases hsch with he | he <;> subst he
    · exact ⟨'h', _, rfl, by decide⟩
    · exact ⟨'h', _, rfl, by decide⟩
  have hschemeSplit : splitScheme (preprocessUrl
      (sch ++ ':' :: '/' :: '/' :: (nl ++ pp ++ (if q ≠ [] then '?' :: q else [])))) =
      (sch, '/' :: '/' :: (nl ++ pp ++ (if q ≠ [] then '?' :: q else []))) := by
    rw [hpre]
    exact splitScheme_literal hsch _
  have hassoc : nl ++ pp ++ (if q ≠ [] then '?' :: q else []) =
      nl ++ (pp ++ (if q ≠ [] then '?' :: q else [])) := by
    simp [List.append_assoc]
  have hnet : netlocSplit ('/' :: '/' :: (nl ++ pp ++ (if q ≠ [] then '?' :: q else []))) =
      .ok (nl, pp ++ (if q ≠ [] then '?' :: q else [])) := by
    rw [hassoc]
    apply netlocSplit_reassemble (fun c hc => ⟨(hN.1 c hc).1, (hN.1 c hc).2.1⟩)
      ⟨hN.2.1, hN.2.2⟩
    rcases hppH with h0 | ⟨t, ht⟩
    · subst h0
      by_cases hq : q = []
      · left; simp [hq]
      · right
        exact ⟨'?', q, by simp [hq], by decide⟩
    · subst ht
      right
      exact ⟨'/', t ++ (if q ≠ [] then '?' :: q else []), by simp, by decide⟩
  have hfrag : splitOnceD '#' (pp ++ (if q ≠ [] then '?' :: q else [])) =
      (pp ++ (if q ≠ [] then '?' :: q else []), []) := by
    apply splitOnceD_not_mem
    intro hc
    rcases List.mem_append.mp hc with h | h
    · exact (hpp1 _ h).1 rfl
    · rcases hqt _ h with h | h
      · exact absurd h (by decide)
      · exact (hq1 _ h).1 rfl
  have hquery : splitOnceD '?' (pp ++ (if q ≠ [] then '?' :: q else [])) = (pp, q) := by
    by_cases hq : q = []
    · subst hq
      rw [if_neg (by simp)]
      rw [List.append_nil]
      apply splitOnceD_not_mem
      intro hc
      exact (hpp1 _ hc).2.1 rfl
    · rw [if_pos hq]
      exact splitOnceD_split (fun c hc => (hpp1 c hc).2.1)
  exact urlsplit_build hschemeSplit hnet hfrag hquery

theorem urlparse_reassemble {sch nl pa pr q : Str}
    (hsch : sch = "http".data ∨ sch = "https".data)
    (hnl : nl ≠ []) (hN : NetlocOk nl) (hP : PathOk pa) (hPr : ParamsOk pr) (hQ : QueryOk q)
    (hHead : pa = [] ∨ ∃ t, pa = '/' :: t)
    (hPrH : pr ≠ [] → ∃ t, pa = '/' :: t)
    (hL : ';' ∉ lastSeg pa) :
    urlparse (urlunparse ⟨sch, nl, pa, pr, q, []⟩) = .ok ⟨sch, nl, pa, pr, q, []⟩ := by
  have hschne : sch ≠ [] := by rcases hsch with h | h <;> subst h <;> decide
  have hschUP : sch ∈ uses_params := by rcases hsch with h | h <;> subst h <;> decide
  by_cases hpr : pr = []
  · subst hpr
    have hppif : (if ([] : Str) ≠ [] then pa ++ ';' :: ([] : Str) else pa) = pa := by simp
    rw [urlunparse_shape hschne hnl (by rw [hppif]; exact hHead), hppif]
    have hus := urlsplit_reassemble_gen hsch hN hP hQ hHead
    unfold urlparse
    rw [hus]
    dsimp only
    by_cases hsem : ';' ∈ pa
    · rw [if_pos ⟨hschUP, hsem⟩, splitparams_noparams hL hsem]
    · rw [if_neg (fun hc => hsem hc.2)]
  · have hpa := hPrH hpr
    have hppif : (if pr ≠ [] then pa ++ ';' :: pr else pa) = pa ++ ';' :: pr := if_pos hpr
    have hppH : pa ++ ';' :: pr = [] ∨ ∃ t, pa ++ ';' :: pr = '/' :: t := by
      right
      rcases hpa with ⟨t, ht⟩
      subst ht
      exact ⟨t ++ ';' :: pr, by simp⟩
    have hppChars : ∀ c ∈ pa ++ ';' :: pr, c ≠ '#' ∧ c ≠ '?' ∧ isUnsafeUrlChar c = false := by
      intro c hc
      rcases List.mem_append.mp hc with h | h
      · exact hP c h
      · rcases List.mem_cons.mp h with h | h
        · subst h; refine ⟨by decide, by decide, by decide⟩
        · exact ⟨(hPr c h).1, (hPr c h).2.1, (hPr c h).2.2.1⟩
    rw [urlunparse_shape hschne hnl (by rw [hppif]; exact hppH), hppif]
    have hus := urlsplit_reassemble_gen hsch hN hppChars hQ hppH
    unfold urlparse
    rw [hus]
    dsimp only
    have hsem : ';' ∈ pa ++ ';' :: pr := List.mem_append_right _ (by simp)
    rw [if_pos ⟨hschUP, hsem⟩,
      splitparams_rejoin (fun c hc => (hPr c hc).2.2.2) hL]

theorem clean_url_cases {u s : Str} (h : clean_url u = .ok s) :
    ∃ p, urlparse u = .ok p ∧
      ((s = [] ∧ (p.scheme = [] ∨ p.netloc = [] ∨
          ¬(p.scheme = "http".data ∨ p.scheme = "https".data) ∨
          hasSkipExtension p.path = true)) ∨
       (s = urlunparse ⟨p.scheme, p.netloc, p.path, p.params, p.query, []⟩ ∧
        p.scheme ≠ [] ∧ p.netloc ≠ [] ∧
        (p.scheme = "http".data ∨ p.scheme = "https".data) ∧
        hasSkipExtension p.path = false)) := by
  unfold clean_url at h
  cases hup : urlparse u with
  | error e => rw [hup] at h; exact absurd h (by simp)
  | ok p =>
    rw [hup] at h
    split at h
    · rename_i e he
      cases he
    · rename_i p2 hp2
      injection hp2 with hp2
      subst hp2
      refine ⟨p, rfl, ?_⟩
      by_cases h1 : p.scheme = [] ∨ p.netloc = []
      · rw [if_pos h1] at h
        injection h with h
        left
        rcases h1 with h1 | h1
        · exact ⟨h.symm, Or.inl h1⟩
        · exact ⟨h.symm, Or.inr (Or.inl h1)⟩
      · rw [if_neg h1] at h
        by_cases h2 : p.scheme = "http".data ∨ p.scheme = "https".data
        · rw [if_neg (not_not_intro h2)] at h
          by_cases h3 : hasSkipExtension p.path = true
          · rw [if_pos h3] at h
            injection h with h
            exact Or.inl ⟨h.symm, Or.inr (Or.inr (Or.inr h3))⟩
          · rw [if_neg h3] at h
            injection h with h
            right
            refine ⟨h.symm, fun e => h1 (Or.inl e), fun e => h1 (Or.inr e), h2, ?_⟩
            cases hse : hasSkipExtension p.path
            · rfl
            · exact absurd hse h3
        · rw [if_pos h2] at h
          injection h with h
          exact Or.inl ⟨h.symm, Or.inr (Or.inr (Or.inl h2))⟩

theorem clean_url_empty : clean_url [] = .ok [] := rfl

theorem clean_url_accept_facts {u : Str} {p : ParseResult} (hup : urlparse u = .ok p)
    (hsch : p.scheme = "http".data ∨ p.scheme = "https".data) (hnl : p.netloc ≠ []) :
    NetlocOk p.netloc ∧ PathOk p.path ∧ ParamsOk p.params ∧ QueryOk p.query ∧
    (p.path = [] ∨ ∃ t2, p.path = '/' :: t2) ∧
    (p.params ≠ [] → ∃ t2, p.path = '/' :: t2) ∧
    (';' ∉ lastSeg p.path) := by
  rcases urlparse_ok_spec hup with ⟨r, hur, _he1, he2, he3, _he4, ⟨t, hpre⟩, hparams, hlseg, hpnem⟩
  obtain ⟨hN, hPr_, hQr, hHr⟩ := urlsplit_ok_spec hur
  have hN2 : NetlocOk p.netloc := by rw [he2]; exact hN
  have hmemr : ∀ c ∈ p.path, c ∈ r.path := by
    intro c hc
    rw [hpre]
    exact List.mem_append_left t hc
  have hP2 : PathOk p.path := fun c hc => hPr_ c (hmemr c hc)
  have hPm2 : ParamsOk p.params := by
    intro c hc
    obtain ⟨hm, hs2⟩ := hparams c hc
    exact ⟨(hPr_ c hm).1, (hPr_ c hm).2.1, (hPr_ c hm).2.2, hs2⟩
  have hQ2 : QueryOk p.query := by rw [he3]; exact hQr
  have hnlr : r.netloc ≠ [] := by rw [← he2]; exact hnl
  have hHead : p.path = [] ∨ ∃ t2, p.path = '/' :: t2 := by
    rcases hHr hnlr with h0 | ⟨t0, ht0⟩
    · rw [h0] at hpre
      left
      exact (List.append_eq_nil.mp hpre.symm).1
    · cases hpp : p.path with
      | nil => exact Or.inl rfl
      | cons c tl =>
        right
        rw [hpp, ht0] at hpre
        simp only [List.cons_append, List.cons.injEq] at hpre
        exact ⟨tl, by rw [← hpre.1]⟩
  have hPrH : p.params ≠ [] → ∃ t2, p.path = '/' :: t2 := by
    intro hne
    have hslash : '/' ∈ r.path := by
      rcases hHr hnlr with h0 | ⟨t0, ht0⟩
      · exfalso
        cases hpm : p.params with
        | nil => exact hne hpm
        | cons c tl =>
          have hcm := (hparams c (by rw [hpm]; simp)).1
          rw [h0] at hcm
          simp at hcm
      · rw [ht0]; simp
    have hpne := hpnem hslash
    rcases hHead with h0 | h2
    · exact absurd h0 hpne
    · exact h2
  have hschUP : p.scheme ∈ uses_params := by
    rcases hsch with h2 | h2 <;> rw [h2] <;> decide
  exact ⟨hN2, hP2, hPm2, hQ2, hHead, hPrH, hlseg hschUP⟩

theorem clean_url_roundtrip {u s : Str} (h : clean_url u = .ok s) : clean_url s = .ok s := by
  rcases clean_url_cases h with ⟨p, hup, hcase⟩
  rcases hcase with ⟨hs, _⟩ | ⟨hs, hsne, hnl, hsch, hskip⟩
  · subst hs
    exact clean_url_empty
  · obtain ⟨hN2, hP2, hPm2, hQ2, hHead, hPrH, hL2⟩ := clean_url_accept_facts hup hsch hnl
    have hre := urlparse_reassemble hsch hnl hN2 hP2 hPm2 hQ2 hHead hPrH hL2
    subst hs
    unfold clean_url
    rw [hre]
    dsimp only
    rw [if_neg (by push_neg; exact ⟨hsne, hnl⟩), if_neg (not_not_intro hsch),
      if_neg (by rw [hskip]; simp)]

theorem urlunparse_ne_nil {p : ParseResult} (h : p.scheme ≠ []) : urlunparse p ≠ [] := by
  unfold urlunparse urlunsplit
  split_ifs <;> simp_all [List.append_eq_nil]

theorem clean_url_accept_no_hash {u : Str} {p : ParseResult} (hup : urlparse u = .ok p)
    (hsch : p.scheme = "http".data ∨ p.scheme = "https".data) (hnl : p.netloc ≠ []) :
    '#' ∉ urlunparse ⟨p.scheme, p.netloc, p.path, p.params, p.query, []⟩ := by
  obtain ⟨hN2, hP2, hPm2, hQ2, hHead, hPrH, _⟩ := clean_url_accept_facts hup hsch hnl
  have hschne : p.scheme ≠ [] := by rcases hsch with h | h <;> rw [h] <;> decide
  have hppH : (if p.params ≠ [] then p.path ++ ';' :: p.params else p.path) = [] ∨
      ∃ t, (if p.params ≠ [] then p.path ++ ';' :: p.params else p.path) = '/' :: t := by
    by_cases hpr : p.params = []
    · rw [if_neg (not_not_intro hpr)]
      exact hHead
    · rw [if_pos hpr]
      right
      rcases hPrH hpr with ⟨t, ht⟩
      rw [ht]
      exact ⟨t ++ ';' :: p.params, by simp⟩
  rw [urlunparse_shape hschne hnl hppH]
  intro hmem
  have hhash : ∀ c ∈ p.scheme, c ≠ '#' := by
    rcases hsch with h | h <;> rw [h] <;> decide
  rcases List.mem_append.mp hmem with h | h
  · exact hhash _ h rfl
  · rcases List.mem_cons.mp h with h | h
    · exact absurd h (by decide)
    · rcases List.mem_cons.mp h with h | h
      · exact absurd h (by decide)
      · rcases List.mem_cons.mp h with h | h
        · exact absurd h (by decide)
        · rcases List.mem_append.mp h with h | h
          · rcases List.mem_append.mp h with h | h
            · have := (hN2.1 _ h).1
              simp [notNetlocDelim] at this
            · by_cases hpr : p.params = []
              · rw [if_neg (not_not_intro hpr)] at h
                exact (hP2 _ h).1 rfl
              · rw [if_pos hpr] at h
                rcases List.mem_append.mp h with h | h
                · exact (hP2 _ h).1 rfl
                · rcases List.mem_cons.mp h with h | h
                  · exact absurd h (by decide)
                  · exact (hPm2 _ h).1 rfl
          · by_cases hq : p.query = []
            · rw [if_neg (not_not_intro hq)] at h
              simp at h
            · rw [if_pos hq] at h
              rcases List.mem_cons.mp h with h | h
              · exact absurd h (by decide)
              · exact (hQ2 _ h).1 rfl

/-- C10: URL normalisation is idempotent.  `clean_url (clean_url u)` (as the
`Except`-composition of the scraper's `clean_url` with itself, an exception
propagating through) equals `clean_url u`: the rejected result `""` maps to
itself and every accepted canonical URL re-normalises to itself, so
re-cleaning an already-enqueued link at dequeue time never changes the
deduplication key checked against the visited set. -/
theorem claim_C10_clean_url_idempotent (u : Str) :
    (clean_url u).bind clean_url = clean_url u := by
  cases h : clean_url u with
  | error e => rfl
  | ok s =>
    show clean_url s = Except.ok s
    exact clean_url_roundtrip h

/-- C4: given that `urlparse` succeeds on the input, the Normalizer returns
the empty (rejected) result exactly when the scheme or host is absent, the
scheme is not http/https, or the path ends case-insensitively in a
skip-listed extension; otherwise it returns the parsed URL re-assembled with
its fragment dropped, and the result never contains a `#`. -/
theorem claim_C4_normalizer (u : Str) (p : ParseResult) (hp : urlparse u = .ok p) :
    (clean_url u = .ok [] ↔
      (p.scheme = [] ∨ p.netloc = [] ∨
       ¬(p.scheme = "http".data ∨ p.scheme = "https".data) ∨
       hasSkipExtension p.path = true)) ∧
    (∀ s, clean_url u = .ok s →
      s ≠ [] → s = urlunparse ⟨p.scheme, p.netloc, p.path, p.params, p.query, []⟩) ∧
    (∀ s, clean_url u = .ok s → '#' ∉ s) := by
  refine ⟨⟨?_, ?_⟩, ?_, ?_⟩
  · intro hcl
    rcases clean_url_cases hcl with ⟨p2, hp2, hcase⟩
    rw [hp] at hp2
    injection hp2 with hp2
    subst hp2
    rcases hcase with ⟨_, hcond⟩ | ⟨hs, hsne, _, _, _⟩
    · exact hcond
    · exfalso
      exact urlunparse_ne_nil (p := ⟨p.scheme, p.netloc, p.path, p.params, p.query, []⟩)
        hsne hs.symm
  · intro hcond
    unfold clean_url
    rw [hp]
    dsimp only
    by_cases h1 : p.scheme = [] ∨ p.netloc = []
    · rw [if_pos h1]
    · rw [if_neg h1]
      by_cases h2 : p.scheme = "http".data ∨ p.scheme = "https".data
      · rw [if_neg (not_not_intro h2)]
        have h3 : hasSkipExtension p.path = true := by
          rcases hcond with hc | hc | hc | hc
          · exact absurd (Or.inl hc) h1
          · exact absurd (Or.inr hc) h1
          · exact absurd h2 hc
          · exact hc
        rw [if_pos h3]
      · rw [if_pos h2]
  · intro s hcl hsne
    rcases clean_url_cases hcl with ⟨p2, hp2, hcase⟩
    rw [hp] at hp2
    injection hp2 with hp2
    subst hp2
    rcases hcase with ⟨hs, _⟩ | ⟨hs, _, _, _, _⟩
    · exact absurd hs hsne
    · exact hs
  · intro s hcl
    rcases clean_url_cases hcl with ⟨p2, hp2, hcase⟩
    rw [hp] at hp2
    injection hp2 with hp2
    subst hp2
    rcases hcase with ⟨hs, _⟩ | ⟨hs, _, hnl, hsch, _⟩
    · rw [hs]
      simp
    · rw [hs]
      exact clean_url_accept_no_hash hp hsch hnl

/-- Witness for C4 at the spec's own example: `http://a.co/x#frag` is accepted,
the fragment is stripped, and the result contains no `#`. -/
theorem claim_C4_witness :
    clean_url ("http://a.co/x#frag".data) = .ok ("http://a.co/x".data) ∧
    '#' ∉ ("http://a.co/x".data) := by
  have hp : urlparse ("http://a.co/x#frag".data) =
      .ok ⟨"http".data, "a.co".data, "/x".data, [], [], "frag".data⟩ := rfl
  have hcl : clean_url ("http://a.co/x#frag".data) = .ok ("http://a.co/x".data) := rfl
  exact ⟨hcl, (claim_C4_normalizer _ _ hp).2.2 _ hcl⟩

/-! ### Crawl-step characterisation lemmas -/

theorem pySetAdd_not_mem {v : List Str} {u : Str} (h : u ∉ v) : pySetAdd v u = u :: v := by
  simp [pySetAdd, h]

theorem crawlStep_discard_eq {env : CrawlEnv} {bd : Str} {s : CrawlState}
    {url0 : Str} {rest : List Str} {u : Str}
    (hq : s.queue = url0 :: rest) (hcl : clean_url url0 = .ok u)
    (hdisc : u = [] ∨ u ∈ s.visited) :
    crawlStep env bd s = .ok { s with queue := rest } := by
  unfold crawlStep
  rw [hq]
  dsimp only
  rw [hcl]
  dsimp only
  rw [if_pos hdisc]

theorem crawlStep_disallowed_eq {env : CrawlEnv} {bd : Str} {s : CrawlState}
    {url0 : Str} {rest : List Str} {u : Str}
    (hq : s.queue = url0 :: rest) (hcl : clean_url url0 = .ok u)
    (hne : u ≠ []) (hnv : u ∉ s.visited) (hcf : env.canFetch u = false) :
    crawlStep env bd s = .ok { s with queue := rest, visited := pySetAdd s.visited u } := by
  unfold crawlStep
  rw [hq]
  dsimp only
  rw [hcl]
  dsimp only
  rw [if_neg (by rintro (h | h); exact hne h; exact hnv h), if_pos hcf]

theorem crawlStep_fail_eq {env : CrawlEnv} {bd : Str} {s : CrawlState}
    {url0 : Str} {rest : List Str} {u : Str}
    (hq : s.queue = url0 :: rest) (hcl : clean_url url0 = .ok u)
    (hne : u ≠ []) (hnv : u ∉ s.visited) (hcf : env.canFetch u = true)
    (hfail : codeTransportFailure (env.fetch u) = true) :
    crawlStep env bd s = .ok { s with queue := rest, visited := pySetAdd s.visited u,
                                      trace := s.trace ++ [.fetchEv u] } := by
  unfold crawlStep
  rw [hq]
  dsimp only
  rw [hcl]
  dsimp only
  rw [if_neg (by rintro (h | h); exact hne h; exact hnv h),
    if_neg (by rw [hcf]; simp)]
  cases hf : env.fetch u with
  | exn => rfl
  | resp status ct doc =>
    dsimp only
    rw [hf] at hfail
    simp only [codeTransportFailure, Bool.or_eq_true, Bool.not_eq_true'] at hfail
    rcases hfail with hfail | hfail
    · rw [if_pos (of_decide_eq_false hfail)]
    · by_cases hst : status = 200
      · rw [if_neg (not_not_intro hst), if_pos hfail]
      · rw [if_pos hst]

theorem crawlStep_success_eq {env : CrawlEnv} {bd : Str} {s : CrawlState}
    {url0 : Str} {rest : List Str} {u : Str} {ct : Str} {doc : List HNode}
    {links : List Str}
    (hq : s.queue = url0 :: rest) (hcl : clean_url url0 = .ok u)
    (hne : u ≠ []) (hnv : u ∉ s.visited) (hcf : env.canFetch u = true)
    (hf : env.fetch u = .resp 200 ct doc)
    (hhtml : isSubstringOf ("text/html".data) ct = true)
    (hcol : collectLinks env bd u s.visited
      (collectHrefs (stripTags BOILERPLATE_TAGS doc)) = .ok links) :
    crawlStep env bd s = .ok
      { queue := rest ++ links,
        visited := pySetAdd s.visited u,
        results := s.results ++
          [mkRecord u (extractFromStripped (stripTags BOILERPLATE_TAGS doc))],
        trace := s.trace ++ [.fetchEv u, .sleepEv] } := by
  unfold crawlStep
  rw [hq]
  dsimp only
  rw [hcl]
  dsimp only
  rw [if_neg (by rintro (h | h); exact hne h; exact hnv h),
    if_neg (by rw [hcf]; simp), hf]
  dsimp only
  rw [if_neg (by simp), if_neg (by rw [hhtml]; simp), hcol]


theorem crawlRun_succ_step {env : CrawlEnv} {bd : Str} {n : Nat} {s s1 s' : CrawlState}
    (hguard : s.queue ≠ [] ∧ s.visited.length < env.maxPages)
    (hstep : crawlStep env bd s = .ok s1) (hrest : crawlRun env bd n s1 = .ok s') :
    crawlRun env bd (n + 1) s = .ok s' := by
  unfold crawlRun
  rw [if_pos hguard, hstep]
  exact hrest

theorem crawlRun_stop {env : CrawlEnv} {bd : Str} {n : Nat} {s : CrawlState}
    (h : ¬(s.queue ≠ [] ∧ s.visited.length < env.maxPages)) :
    crawlRun env bd n s = .ok s := by
  cases n with
  | zero => rfl
  | succ n =>
    unfold crawlRun
    rw [if_neg h]

theorem crawlStep_cases {env : CrawlEnv} {bd : Str} {s s' : CrawlState}
    (h : crawlStep env bd s = .ok s') :
    s' = s ∨
    (∃ rest, s' = { s with queue := rest }) ∨
    (∃ u rest, u ∉ s.visited ∧
      s' = { s with queue := rest, visited := u :: s.visited }) ∨
    (∃ u rest, u ∉ s.visited ∧
      s' = { s with queue := rest, visited := u :: s.visited,
                    trace := s.trace ++ [.fetchEv u] }) ∨
    (∃ u rest links r, u ∉ s.visited ∧ r.url = u ∧
      s' = { queue := rest ++ links, visited := u :: s.visited,
             results := s.results ++ [r],
             trace := s.trace ++ [.fetchEv u, .sleepEv] }) := by
  unfold crawlStep at h
  cases hq : s.queue with
  | nil =>
    rw [hq] at h
    dsimp only at h
    injection h with h
    exact Or.inl h.symm
  | cons url0 rest =>
    rw [hq] at h
    dsimp only at h
    cases hcl : clean_url url0 with
    | error e =>
      rw [hcl] at h
      dsimp only at h
      exact absurd h (by simp)
    | ok u =>
      rw [hcl] at h
      dsimp only at h
      split at h
      · injection h with h
        exact Or.inr (Or.inl ⟨rest, h.symm⟩)
      · rename_i hdisc
        push_neg at hdisc
        have hnv : u ∉ s.visited := hdisc.2
        split at h
        · injection h with h
          rw [pySetAdd_not_mem hnv] at h
          exact Or.inr (Or.inr (Or.inl ⟨u, rest, hnv, h.symm⟩))
        · cases hf : env.fetch u with
          | exn =>
            rw [hf] at h
            dsimp only at h
            injection h with h
            rw [pySetAdd_not_mem hnv] at h
            exact Or.inr (Or.inr (Or.inr (Or.inl ⟨u, rest, hnv, h.symm⟩)))
          | resp status ct doc =>
            rw [hf] at h
            dsimp only at h
            split at h
            · injection h with h
              rw [pySetAdd_not_mem hnv] at h
              exact Or.inr (Or.inr (Or.inr (Or.inl ⟨u, rest, hnv, h.symm⟩)))
            · split at h
              · injection h with h
                rw [pySetAdd_not_mem hnv] at h
                exact Or.inr (Or.inr (Or.inr (Or.inl ⟨u, rest, hnv, h.symm⟩)))
              · split at h
                · exact absurd h (by simp)
                · rename_i links hlinks
                  injection h with h
                  rw [pySetAdd_not_mem hnv] at h
                  refine Or.inr (Or.inr (Or.inr (Or.inr
                    ⟨u, rest, links,
                     mkRecord u (extractFromStripped (stripTags BOILERPLATE_TAGS doc)),
                     hnv, rfl, h.symm⟩)))

theorem crawlStep_visited_subset {env : CrawlEnv} {bd : Str} {s s' : CrawlState}
    (h : crawlStep env bd s = .ok s') : s.visited ⊆ s'.visited := by
  rcases crawlStep_cases h with h | ⟨rest, h⟩ | ⟨u, rest, hnv, h⟩ |
      ⟨u, rest, hnv, h⟩ | ⟨u, rest, links, r, hnv, hru, h⟩ <;> subst h
  · exact List.Subset.refl _
  · exact List.Subset.refl _
  · exact List.subset_cons_self _ _
  · exact List.subset_cons_self _ _
  · exact List.subset_cons_self _ _

theorem crawlStep_preserves_inv {env : CrawlEnv} {bd : Str} {s s' : CrawlState}
    (h : crawlStep env bd s = .ok s') (hlt : s.visited.length < env.maxPages)
    (hinv : crawlInv env.maxPages s) : crawlInv env.maxPages s' := by
  obtain ⟨hnd, hlen, hmax⟩ := hinv
  rcases crawlStep_cases h with h | ⟨rest, h⟩ | ⟨u, rest, hnv, h⟩ |
      ⟨u, rest, hnv, h⟩ | ⟨u, rest, links, r, hnv, hru, h⟩ <;> subst h
  · exact ⟨hnd, hlen, hmax⟩
  · exact ⟨hnd, hlen, hmax⟩
  · exact ⟨List.nodup_cons.mpr ⟨hnv, hnd⟩, Nat.le_succ_of_le hlen, hlt⟩
  · exact ⟨List.nodup_cons.mpr ⟨hnv, hnd⟩, Nat.le_succ_of_le hlen, hlt⟩
  · refine ⟨List.nodup_cons.mpr ⟨hnv, hnd⟩, ?_, hlt⟩
    simpa using Nat.succ_le_succ hlen

theorem crawlStep_preserves_records {env : CrawlEnv} {bd : Str} {s s' : CrawlState}
    (h : crawlStep env bd s = .ok s') (hrec : recordsOk s) : recordsOk s' := by
  obtain ⟨hnd, hmem⟩ := hrec
  rcases crawlStep_cases h with h | ⟨rest, h⟩ | ⟨u, rest, hnv, h⟩ |
      ⟨u, rest, hnv, h⟩ | ⟨u, rest, links, r, hnv, hru, h⟩ <;> subst h
  · exact ⟨hnd, hmem⟩
  · exact ⟨hnd, hmem⟩
  · exact ⟨hnd, fun r hr => List.mem_cons_of_mem _ (hmem r hr)⟩
  · exact ⟨hnd, fun r hr => List.mem_cons_of_mem _ (hmem r hr)⟩
  · constructor
    · dsimp only
      rw [List.map_append]
      refine List.Nodup.append hnd (by simp) ?_
      intro x hx hy
      simp only [List.map_cons, List.map_nil, List.mem_singleton] at hy
      subst hy
      rw [hru] at hx
      obtain ⟨r0, hr0, hr0u⟩ := List.mem_map.mp hx
      exact hnv (hr0u ▸ hmem r0 hr0)
    · intro r2 hr2
      dsimp only at hr2 ⊢
      rcases List.mem_append.mp hr2 with hr2 | hr2
      · exact List.mem_cons_of_mem _ (hmem r2 hr2)
      · simp only [List.mem_singleton] at hr2
        subst hr2
        rw [hru]
        exact List.mem_cons_self _ _

theorem crawlRun_preserves_inv {env : CrawlEnv} {bd : Str} :
    ∀ {n : Nat} {s s' : CrawlState}, crawlRun env bd n s = .ok s' →
      crawlInv env.maxPages s → s.visited ⊆ s'.visited ∧ crawlInv env.maxPages s'
  | 0, s, s', h, hinv => by
    injection h with h
    subst h
    exact ⟨List.Subset.refl _, hinv⟩
  | n + 1, s, s', h, hinv => by
    unfold crawlRun at h
    split at h
    · rename_i hg
      cases hs : crawlStep env bd s with
      | error e =>
        rw [hs] at h
        exact absurd h (by simp)
      | ok s1 =>
        rw [hs] at h
        have h1 : crawlInv env.maxPages s1 := crawlStep_preserves_inv hs hg.2 hinv
        have h2 := crawlRun_preserves_inv h h1
        exact ⟨(crawlStep_visited_subset hs).trans h2.1, h2.2⟩
    · injection h with h
      subst h
      exact ⟨List.Subset.refl _, hinv⟩

theorem crawlRun_preserves_records {env : CrawlEnv} {bd : Str} :
    ∀ {n : Nat} {s s' : CrawlState}, crawlRun env bd n s = .ok s' →
      recordsOk s → recordsOk s'
  | 0, s, s', h, hrec => by
    injection h with h
    subst h
    exact hrec
  | n + 1, s, s', h, hrec => by
    unfold crawlRun at h
    split at h
    · cases hs : crawlStep env bd s with
      | error e =>
        rw [hs] at h
        exact absurd h (by simp)
      | ok s1 =>
        rw [hs] at h
        exact crawlRun_preserves_records h (crawlStep_preserves_records hs hrec)
    · injection h with h
      subst h
      exact hrec

theorem initCrawlState_inv (mp : Nat) (u : Str) : crawlInv mp (initCrawlState u) :=
  ⟨List.nodup_nil, Nat.le_refl 0, Nat.zero_le mp⟩

theorem initCrawlState_records (u : Str) : recordsOk (initCrawlState u) :=
  ⟨List.nodup_nil, fun r hr => absurd hr (List.not_mem_nil r)⟩

/-! ### Claim theorems -/

/-- C1 (counterexample): when the robots.txt fetch raises a transport error,
`can_fetch` answers `false` for a subsequently checked URL — not `true` as the
spec claims (fail-open).  The scraper's `except Exception` returns the parser
unread (`last_checked == 0`), and CPython's `can_fetch` answers `False` for an
unread parser. -/
theorem claim_C1_cex :
    can_fetch (buildRobotParser .raised) ("Mozilla/5.0".data)
      ("http://example.com/page".data) = .ok false := rfl

/-- C1 (amended): a transport error during the robots.txt fetch leaves the
Politeness Gate fail-closed — `can_fetch` returns `false` for every user agent
and every URL checked in that run. -/
theorem claim_C1_robots_fail_closed (ua url : Str) :
    can_fetch (buildRobotParser .raised) ua url = .ok false := rfl

/-- C5: for every extracted page the score equals
`content_length + (h_count * 80) + (len(meta_description) * 2)`, and the
spec's concrete instance `500 + 3*80 + 50*2 = 840` holds. -/
theorem claim_C5_score_formula (soup : List HNode) :
    (extract_content soup).score =
      scoreFormula (extract_content soup).content_length (hCountOf soup)
        (extract_content soup).meta_description.length ∧
    scoreFormula 500 3 50 = 840 :=
  ⟨rfl, rfl⟩

/-- C3 (counterexample): `base_domain` is not computed by stripping a leading
`"www."` — the source's `.replace("www.", "")` removes every occurrence, so a
base host with an interior `"www."` yields a different base domain than the
spec describes. -/
theorem claim_C3_cex :
    base_domain_of ("http://durex.www.es/x".data) = .ok ("durex.es".data) ∧
    specBaseDomain ("http://durex.www.es/x".data) = .ok ("durex.www.es".data) ∧
    ("durex.es".data : Str) ≠ ("durex.www.es".data : Str) :=
  ⟨rfl, rfl, by decide⟩

/-- C3 (amended): domain scoping keeps exactly the links whose lowercased host
equals `base_domain` or ends with `"." + base_domain` (with the spec's two
examples), but `base_domain` is the base host with every occurrence of
`"www."` removed and lowercased (`replace("www.", "")`), not just a leading
one. -/
theorem claim_C3_domain_scoping (url bd : Str) (p : ParseResult)
    (hp : urlparse url = .ok p) :
    same_domain url bd =
      .ok (decide (pyLower p.netloc = bd) ||
           ('.' :: bd).isSuffixOf (pyLower p.netloc)) ∧
    same_domain ("http://blog.example.com/p".data) ("example.com".data) = .ok true ∧
    same_domain ("http://evil.com/example.com".data) ("example.com".data) = .ok false ∧
    base_domain_of ("http://www.example.com/".data) = .ok ("example.com".data) := by
  refine ⟨?_, rfl, rfl, rfl⟩
  unfold same_domain
  rw [hp]

/-- Witness for C3 at the spec's first example. -/
theorem claim_C3_witness :
    same_domain ("http://blog.example.com/p".data) ("example.com".data) =
      .ok true :=
  (claim_C3_domain_scoping ("http://blog.example.com/p".data)
    ("example.com".data)
    ⟨"http".data, "blog.example.com".data, "/p".data, [], [], []⟩ rfl).2.1

theorem meta_description_rule (soup : List HNode) :
    (otruthy (findMetaContent (stripTags BOILERPLATE_TAGS soup) ("name".data)
        ("description".data)) = true →
      (extract_content soup).meta_description =
        normalize_text ((findMetaContent (stripTags BOILERPLATE_TAGS soup)
          ("name".data) ("description".data)).getD [])) ∧
    (otruthy (findMetaContent (stripTags BOILERPLATE_TAGS soup) ("name".data)
        ("description".data)) = false →
      otruthy (findMetaContent (stripTags BOILERPLATE_TAGS soup)
        ("property".data) ("og:description".data)) = true →
      (extract_content soup).meta_description =
        normalize_text ((findMetaContent (stripTags BOILERPLATE_TAGS soup)
          ("property".data) ("og:description".data)).getD [])) ∧
    (otruthy (findMetaContent (stripTags BOILERPLATE_TAGS soup) ("name".data)
        ("description".data)) = false →
      otruthy (findMetaContent (stripTags BOILERPLATE_TAGS soup)
        ("property".data) ("og:description".data)) = false →
      (extract_content soup).meta_description = []) := by
  refine ⟨fun h1 => ?_, fun h1 h2 => ?_, fun h1 h2 => ?_⟩
  · simp [extract_content, extractFromStripped, h1]
  · simp [extract_content, extractFromStripped, h1, h2]
  · simp [extract_content, extractFromStripped, h1, h2]


theorem stripTags_docC6 : stripTags BOILERPLATE_TAGS docC6 = docC6 := by
  simp [docC6, stripTags, BOILERPLATE_TAGS]

theorem findMD_docC6 :
    findMetaContent docC6 ("name".data) ("description".data) = some [] := by
  rw [findMetaContent]
  rw [show findTag (fun t a => decide (t = "meta".data ∧
      getAttr a ("name".data) = some ("description".data))) docC6 =
      some (.el ("meta".data)
        [("name".data, "description".data), ("content".data, [])] []) by
    simp [docC6, findTag, getAttr, List.find?]]
  rfl

theorem findOG_docC6 :
    findMetaContent docC6 ("property".data) ("og:description".data) =
      some ("hello".data) := by
  rw [findMetaContent]
  rw [show findTag (fun t a => decide (t = "meta".data ∧
      getAttr a ("property".data) = some ("og:description".data))) docC6 =
      some (.el ("meta".data)
        [("property".data, "og:description".data),
         ("content".data, "hello".data)] []) by
    simp [docC6, findTag, getAttr, List.find?]]
  rfl

/-- C6 (counterexample): a `<meta name="description">` tag is present in
`docC6` (with empty `content`), yet the extractor answers with the
`og:description` text — the fallback is keyed on truthiness of the content,
not on presence of the tag. -/
theorem claim_C6_cex :
    findMetaContent (stripTags BOILERPLATE_TAGS docC6) ("name".data)
      ("description".data) = some [] ∧
    (extract_content docC6).meta_description = "hello".data := by
  refine ⟨by rw [stripTags_docC6, findMD_docC6], ?_⟩
  have h := (meta_description_rule docC6).2.1
    (by rw [stripTags_docC6, findMD_docC6]; rfl)
    (by rw [stripTags_docC6, findOG_docC6]; rfl)
  rw [h, stripTags_docC6, findOG_docC6]
  rfl

/-- C6 (amended): the extractor's `meta_description` is the normalised
`description` content when that content is present and non-empty; it falls
back to `og:description` whenever the `description` content is missing *or
empty* (Python falsiness), and is empty only when both are falsy. -/
theorem claim_C6_meta_description_fallback (soup : List HNode) :
    (otruthy (findMetaContent (stripTags BOILERPLATE_TAGS soup) ("name".data)
        ("description".data)) = true →
      (extract_content soup).meta_description =
        normalize_text ((findMetaContent (stripTags BOILERPLATE_TAGS soup)
          ("name".data) ("description".data)).getD [])) ∧
    (otruthy (findMetaContent (stripTags BOILERPLATE_TAGS soup) ("name".data)
        ("description".data)) = false →
      otruthy (findMetaContent (stripTags BOILERPLATE_TAGS soup)
        ("property".data) ("og:description".data)) = true →
      (extract_content soup).meta_description =
        normalize_text ((findMetaContent (stripTags BOILERPLATE_TAGS soup)
          ("property".data) ("og:description".data)).getD [])) ∧
    (otruthy (findMetaContent (stripTags BOILERPLATE_TAGS soup) ("name".data)
        ("description".data)) = false →
      otruthy (findMetaContent (stripTags BOILERPLATE_TAGS soup)
        ("property".data) ("og:description".data)) = false →
      (extract_content soup).meta_description = []) :=
  meta_description_rule soup

/-- Witness for C6: on `docC6` the `description` content is falsy and the
`og:description` content is truthy, so the fallback fires. -/
theorem claim_C6_witness :
    (extract_content docC6).meta_description =
      normalize_text ((findMetaContent (stripTags BOILERPLATE_TAGS docC6)
        ("property".data) ("og:description".data)).getD []) :=
  (claim_C6_meta_description_fallback docC6).2.1
    (by rw [stripTags_docC6, findMD_docC6]; rfl)
    (by rw [stripTags_docC6, findOG_docC6]; rfl)

/-- C2 (counterexample): a 202 response with an HTML body is not a
transport-level failure in the spec's sense (it is 2xx and HTML), yet the
crawl of `envC2` — whose every fetch answers 202 — produces no `PageRecord`
at all: the source skips every status other than exactly 200. -/
theorem claim_C2_cex :
    specTransportFailure (FetchOutcome.resp 202 ("text/html".data) docLinks) =
      false ∧
    codeTransportFailure (FetchOutcome.resp 202 ("text/html".data) docLinks) =
      true ∧
    crawl_site envC2 ("http://s.t/".data) 5 = .ok [] :=
  ⟨rfl, rfl, rfl⟩

/-- C2 (amended): in an iteration whose URL survives cleaning, dedup and the
robots gate, a fetch that raises, returns a status other than exactly 200, or
returns a non-HTML content type marks the URL visited, pops the queue,
produces no record and enqueues nothing, and the loop continues (`.ok`); a
fetch with status 200 and an HTML content type proceeds to extraction and
appends one `PageRecord`. -/
theorem claim_C2_transport_failure (env : CrawlEnv) (bd : Str) (s : CrawlState)
    (url0 url : Str) (rest : List Str)
    (hq : s.queue = url0 :: rest) (hcl : clean_url url0 = .ok url)
    (hne : url ≠ []) (hnv : url ∉ s.visited) (hcf : env.canFetch url = true) :
    (codeTransportFailure (env.fetch url) = true →
      crawlStep env bd s = .ok { s with
        queue := rest,
        visited := url :: s.visited,
        trace := s.trace ++ [.fetchEv url] }) ∧
    (∀ status ct doc links, env.fetch url = .resp status ct doc →
      codeTransportFailure (env.fetch url) = false →
      collectLinks env bd url s.visited
        (collectHrefs (stripTags BOILERPLATE_TAGS doc)) = .ok links →
      crawlStep env bd s = .ok
        { queue := rest ++ links, visited := url :: s.visited,
          results := s.results ++
            [mkRecord url (extractFromStripped (stripTags BOILERPLATE_TAGS doc))],
          trace := s.trace ++ [.fetchEv url, .sleepEv] }) := by
  constructor
  · intro hfail
    have h := @crawlStep_fail_eq env bd s url0 rest url hq hcl hne hnv hcf hfail
    rwa [pySetAdd_not_mem hnv] at h
  · intro status ct doc links hf hsucc hcol
    rw [hf] at hsucc
    simp only [codeTransportFailure, Bool.or_eq_false_iff,
      Bool.not_eq_false'] at hsucc
    have hst := of_decide_eq_true hsucc.1
    subst hst
    have h := crawlStep_success_eq hq hcl hne hnv hcf hf hsucc.2 hcol
    rwa [pySetAdd_not_mem hnv] at h

/-- Witness for C2: one concrete failed iteration (a 404 answer) pops the
queue, marks the URL visited and records nothing. -/
theorem claim_C2_witness :
    crawlStep env404 ("s.t".data) (initCrawlState ("http://s.t/".data)) =
      .ok ⟨[], ["http://s.t/".data], [],
           [CrawlEvent.fetchEv ("http://s.t/".data)]⟩ :=
  (claim_C2_transport_failure env404 ("s.t".data)
    (initCrawlState ("http://s.t/".data)) ("http://s.t/".data)
    ("http://s.t/".data) [] rfl rfl (by decide) (by simp [initCrawlState]) rfl).1 rfl

/-- C7: the visited set only grows — each successful iteration's visited set
contains the previous one — and any run from a state satisfying the loop
invariant preserves it; in particular a full `crawl_site` run from the
initial state ends with `|results| ≤ |visited| ≤ max_pages`. -/
theorem claim_C7_visited_growth (env : CrawlEnv) (bd : Str) :
    (∀ s s', crawlStep env bd s = .ok s' → s.visited ⊆ s'.visited) ∧
    (∀ fuel s s', crawlRun env bd fuel s = .ok s' →
      crawlInv env.maxPages s → s.visited ⊆ s'.visited ∧ crawlInv env.maxPages s') ∧
    (∀ base_url fuel s', crawl_state_run env base_url fuel = .ok s' →
      s'.results.length ≤ s'.visited.length ∧ s'.visited.length ≤ env.maxPages) := by
  refine ⟨fun s s' h => crawlStep_visited_subset h,
          fun fuel s s' h hinv => crawlRun_preserves_inv h hinv,
          fun base_url fuel s' h => ?_⟩
  unfold crawl_state_run at h
  split at h
  · exact absurd h (by simp)
  · have hinv := (crawlRun_preserves_inv h (initCrawlState_inv _ _)).2
    exact ⟨hinv.2.1, hinv.2.2⟩

/-- Witness for C7: a concrete one-page run of `envExn` ends with
`|results| = 0 ≤ 1 = |visited| ≤ max_pages`. -/
theorem claim_C7_witness :
    ((⟨[], ["http://s.t/".data], [],
        [CrawlEvent.fetchEv ("http://s.t/".data)]⟩ : CrawlState).results.length ≤
      (⟨[], ["http://s.t/".data], [],
        [CrawlEvent.fetchEv ("http://s.t/".data)]⟩ : CrawlState).visited.length) ∧
    (⟨[], ["http://s.t/".data], [],
      [CrawlEvent.fetchEv ("http://s.t/".data)]⟩ : CrawlState).visited.length ≤
      envExn.maxPages :=
  (claim_C7_visited_growth envExn ("s.t".data)).2.2 ("http://s.t/".data) 3 _ rfl

/-- C8: the url fields of the records a finished crawl returns are pairwise
distinct — each URL is recorded at most once, because recording is guarded by
the visited set at dequeue time. -/
theorem claim_C8_no_duplicate_records (env : CrawlEnv) (base_url : Str)
    (fuel : Nat) (res : List PageRecord)
    (h : crawl_site env base_url fuel = .ok res) :
    (res.map PageRecord.url).Nodup := by
  unfold crawl_site at h
  cases hr : crawl_state_run env base_url fuel with
  | error e =>
    rw [hr] at h
    exact absurd h (by simp [Except.map])
  | ok s1 =>
    rw [hr] at h
    simp only [Except.map] at h
    injection h with h
    subst h
    unfold crawl_state_run at hr
    split at hr
    · exact absurd hr (by simp)
    · exact (crawlRun_preserves_records hr (initCrawlState_records _)).1

/-- Witness for C8 on a concrete run: the single-page `envExn` crawl returns
an empty record list, whose url list is duplicate-free. -/
theorem claim_C8_witness : (([] : List PageRecord).map PageRecord.url).Nodup :=
  claim_C8_no_duplicate_records envExn ("http://s.t/".data) 3 [] rfl

/-- C9 (amended): an iteration appends no event when the URL is discarded or
the robots gate refuses it before any fetch, appends a fetch *without* a
sleep when the fetch fails (exception, bad status, non-HTML), and appends a
fetch followed by a sleep exactly when a record is produced — the politeness
pause is not applied to failed iterations. -/
theorem claim_C9_sleep_only_after_success (env : CrawlEnv) (bd : Str)
    (s s' : CrawlState) (h : crawlStep env bd s = .ok s') :
    s'.trace = s.trace ∨
    (∃ u, s'.trace = s.trace ++ [CrawlEvent.fetchEv u] ∧
      s'.results = s.results) ∨
    (∃ u r, s'.trace = s.trace ++ [CrawlEvent.fetchEv u, CrawlEvent.sleepEv] ∧
      s'.results = s.results ++ [r]) := by
  rcases crawlStep_cases h with h | ⟨rest, h⟩ | ⟨u, rest, hnv, h⟩ |
      ⟨u, rest, hnv, h⟩ | ⟨u, rest, links, r, hnv, hru, h⟩ <;> subst h
  · exact Or.inl rfl
  · exact Or.inl rfl
  · exact Or.inl rfl
  · exact Or.inr (Or.inl ⟨u, rfl, rfl⟩)
  · exact Or.inr (Or.inr ⟨u, r, rfl, rfl⟩)

/-- Witness for C9 (amended) at a concrete failed iteration of `envExn`:
the second disjunct holds — a fetch event with no sleep. -/
theorem claim_C9_witness :
    (⟨[], ["http://s.t/".data], [],
       [CrawlEvent.fetchEv ("http://s.t/".data)]⟩ : CrawlState).trace =
        (initCrawlState ("http://s.t/".data)).trace ∨
    (∃ u, (⟨[], ["http://s.t/".data], [],
       [CrawlEvent.fetchEv ("http://s.t/".data)]⟩ : CrawlState).trace =
        (initCrawlState ("http://s.t/".data)).trace ++ [CrawlEvent.fetchEv u] ∧
      (⟨[], ["http://s.t/".data], [],
       [CrawlEvent.fetchEv ("http://s.t/".data)]⟩ : CrawlState).results =
        (initCrawlState ("http://s.t/".data)).results) ∨
    (∃ u r, (⟨[], ["http://s.t/".data], [],
       [CrawlEvent.fetchEv ("http://s.t/".data)]⟩ : CrawlState).trace =
        (initCrawlState ("http://s.t/".data)).trace ++
          [CrawlEvent.fetchEv u, CrawlEvent.sleepEv] ∧
      (⟨[], ["http://s.t/".data], [],
       [CrawlEvent.fetchEv ("http://s.t/".data)]⟩ : CrawlState).results =
        (initCrawlState ("http://s.t/".data)).results ++ [r]) :=
  claim_C9_sleep_only_after_success envExn [] (initCrawlState ("http://s.t/".data))
    ⟨[], ["http://s.t/".data], [], [CrawlEvent.fetchEv ("http://s.t/".data)]⟩ rfl

theorem docLinks_hrefs : collectHrefs (stripTags BOILERPLATE_TAGS docLinks) =
    ["http://s.t/a".data, "http://s.t/b".data] := by
  simp [docLinks, stripTags, BOILERPLATE_TAGS, collectHrefs, getAttr, List.find?]

theorem collectLinks_envC9 :
    collectLinks envC9 ("s.t".data) ("http://s.t/".data) []
      (collectHrefs (stripTags BOILERPLATE_TAGS docLinks)) =
    .ok ["http://s.t/a".data, "http://s.t/b".data] := by
  rw [docLinks_hrefs]
  rfl

theorem envC9_step1 :
    crawlStep envC9 ("s.t".data) (initCrawlState ("http://s.t/".data)) =
      .ok ⟨["http://s.t/a".data, "http://s.t/b".data], ["http://s.t/".data],
           [mkRecord ("http://s.t/".data)
             (extractFromStripped (stripTags BOILERPLATE_TAGS docLinks))],
           [CrawlEvent.fetchEv ("http://s.t/".data), CrawlEvent.sleepEv]⟩ := by
  have h := @crawlStep_success_eq envC9 ("s.t".data)
    (initCrawlState ("http://s.t/".data)) ("http://s.t/".data) []
    ("http://s.t/".data) ("text/html".data) docLinks
    ["http://s.t/a".data, "http://s.t/b".data]
    rfl rfl (by decide) (by simp [initCrawlState]) rfl rfl rfl collectLinks_envC9
  exact h

theorem envC9_step2 :
    crawlStep envC9 ("s.t".data)
      ⟨["http://s.t/a".data, "http://s.t/b".data], ["http://s.t/".data],
        [mkRecord ("http://s.t/".data)
          (extractFromStripped (stripTags BOILERPLATE_TAGS docLinks))],
        [CrawlEvent.fetchEv ("http://s.t/".data), CrawlEvent.sleepEv]⟩ =
      .ok ⟨["http://s.t/b".data],
           ["http://s.t/a".data, "http://s.t/".data],
           [mkRecord ("http://s.t/".data)
             (extractFromStripped (stripTags BOILERPLATE_TAGS docLinks))],
           [CrawlEvent.fetchEv ("http://s.t/".data), CrawlEvent.sleepEv,
            CrawlEvent.fetchEv ("http://s.t/a".data)]⟩ := by
  have h := @crawlStep_fail_eq envC9 ("s.t".data)
    ⟨["http://s.t/a".data, "http://s.t/b".data], ["http://s.t/".data],
      [mkRecord ("http://s.t/".data)
        (extractFromStripped (stripTags BOILERPLATE_TAGS docLinks))],
      [CrawlEvent.fetchEv ("http://s.t/".data), CrawlEvent.sleepEv]⟩
    ("http://s.t/a".data) ["http://s.t/b".data] ("http://s.t/a".data)
    rfl rfl (by decide) (by decide) rfl rfl
  exact h

theorem envC9_step3 :
    crawlStep envC9 ("s.t".data)
      ⟨["http://s.t/b".data],
        ["http://s.t/a".data, "http://s.t/".data],
        [mkRecord ("http://s.t/".data)
          (extractFromStripped (stripTags BOILERPLATE_TAGS docLinks))],
        [CrawlEvent.fetchEv ("http://s.t/".data), CrawlEvent.sleepEv,
         CrawlEvent.fetchEv ("http://s.t/a".data)]⟩ =
      .ok ⟨[], ["http://s.t/b".data, "http://s.t/a".data, "http://s.t/".data],
           [mkRecord ("http://s.t/".data)
             (extractFromStripped (stripTags BOILERPLATE_TAGS docLinks))],
           [CrawlEvent.fetchEv ("http://s.t/".data), CrawlEvent.sleepEv,
            CrawlEvent.fetchEv ("http://s.t/a".data),
            CrawlEvent.fetchEv ("http://s.t/b".data)]⟩ := by
  have h := @crawlStep_fail_eq envC9 ("s.t".data)
    ⟨["http://s.t/b".data],
      ["http://s.t/a".data, "http://s.t/".data],
      [mkRecord ("http://s.t/".data)
        (extractFromStripped (stripTags BOILERPLATE_TAGS docLinks))],
      [CrawlEvent.fetchEv ("http://s.t/".data), CrawlEvent.sleepEv,
       CrawlEvent.fetchEv ("http://s.t/a".data)]⟩
    ("http://s.t/b".data) [] ("http://s.t/b".data)
    rfl rfl (by decide) (by decide) rfl rfl
  exact h

/-- C9 (counterexample): in the `envC9` crawl the base page succeeds (fetch +
sleep) and its two links both answer 404; the loop skips the sleep on those
failed iterations, so the final trace ends with two consecutive fetch events
and no sleep between them — refuting "every iteration ends by sleeping". -/
theorem claim_C9_cex :
    crawl_state_run envC9 ("http://s.t/".data) 5 =
      .ok ⟨[], ["http://s.t/b".data, "http://s.t/a".data, "http://s.t/".data],
           [mkRecord ("http://s.t/".data)
             (extractFromStripped (stripTags BOILERPLATE_TAGS docLinks))],
           [CrawlEvent.fetchEv ("http://s.t/".data), CrawlEvent.sleepEv,
            CrawlEvent.fetchEv ("http://s.t/a".data),
            CrawlEvent.fetchEv ("http://s.t/b".data)]⟩ ∧
    noConsecutiveFetches
      [CrawlEvent.fetchEv ("http://s.t/".data), CrawlEvent.sleepEv,
       CrawlEvent.fetchEv ("http://s.t/a".data),
       CrawlEvent.fetchEv ("http://s.t/b".data)] = false := by
  constructor
  · have hbd : crawl_state_run envC9 ("http://s.t/".data) 5 =
        crawlRun envC9 ("s.t".data) 5 (initCrawlState ("http://s.t/".data)) := rfl
    rw [hbd]
    show crawlRun envC9 ("s.t".data) (4 + 1) (initCrawlState ("http://s.t/".data)) = _
    refine crawlRun_succ_step ⟨by decide, by decide⟩ envC9_step1 ?_
    show crawlRun envC9 ("s.t".data) (3 + 1) _ = _
    refine crawlRun_succ_step ⟨by decide, by decide⟩ envC9_step2 ?_
    show crawlRun envC9 ("s.t".data) (2 + 1) _ = _
    refine crawlRun_succ_step ⟨by decide, by decide⟩ envC9_step3 ?_
    exact crawlRun_stop (by simp)
  · rfl
